import Mathlib

/-!
Verification development for the currency-conversion tool repository.

The repository contains two module variants:
  - `src/conversion_tools.py` (embedded below in namespace `SrcTool`): a
    regex-cascade query parser, a keyed ExchangeRate-API pair endpoint and a
    CoinGecko spot-price endpoint, both uncached, plus a smart-rounding step;
  - `utils/conversion_tools.py` (embedded in namespace `UtilsTool`): the
    `CurrencyTool` class with TTL-cached fiat rate tables, USD triangulation,
    BTC legs, and its own small parser.

Modelling conventions (shallow embedding):
  - Python `str` values become `String` / `List Char`; case mapping is the
    ASCII mapping, which is what the source exercises on its inputs.
  - Python `float` becomes `ℚ`; `time.time()` becomes a `Nat` instant.
  - Python dicts used as caches become association lists with
    overwrite-at-front update, read through `List.lookup`.
  - The network is a pure oracle (`SWorld` / `UWorld`); every performed HTTP
    request is recorded in an explicit fetch log, mirroring the `GET` lines
    the source writes to its resolution trace. Cache reads are recorded in a
    read log.
  - Python `re` patterns are compiled, pattern by pattern, into a small
    backtracking matcher (`RE` / `mtch`) whose candidate order reproduces the
    leftmost-position, greedy, first-match-wins semantics of `re.search`.
-/

deriving instance DecidableEq for Except

/-- ASCII lower-casing of one character, the mapping Python applies on the
ASCII range. -/
def lowCh (c : Char) : Char :=
  if 65 ≤ c.toNat ∧ c.toNat ≤ 90 then Char.ofNat (c.toNat + 32) else c

/-- ASCII upper-casing of one character. -/
def upCh (c : Char) : Char :=
  if 97 ≤ c.toNat ∧ c.toNat ≤ 122 then Char.ofNat (c.toNat - 32) else c

/-- Decimal digit test, the regex class `[0-9]`. -/
def isDigitCh (c : Char) : Bool := 48 ≤ c.toNat && c.toNat ≤ 57

/-- ASCII letter test, the regex class `[A-Za-z]`. -/
def isAlphaCh (c : Char) : Bool :=
  (65 ≤ c.toNat && c.toNat ≤ 90) || (97 ≤ c.toNat && c.toNat ≤ 122)

/-- Whitespace test covering the characters matched by the regex class `\s`
(space, tab, newline, carriage return, form feed, vertical tab). -/
def isWsCh (c : Char) : Bool :=
  c.toNat = 32 || c.toNat = 9 || c.toNat = 10 || c.toNat = 13 || c.toNat = 12 || c.toNat = 11

/-- Lower-case a string (Python `str.lower` on the ASCII range). -/
def lowStr (s : String) : String := ⟨s.data.map lowCh⟩

/-- Upper-case a string (Python `str.upper` on the ASCII range). -/
def upStr (s : String) : String := ⟨s.data.map upCh⟩

/-- Strip characters satisfying `p` from both ends of a token, the behaviour
of Python `str.strip`. -/
def stripChars (p : Char → Bool) (l : List Char) : List Char :=
  ((l.dropWhile p).reverse.dropWhile p).reverse

/-- Numeric value of a digit list (most significant first). -/
def digitsVal (l : List Char) : Nat := l.foldl (fun a c => a * 10 + (c.toNat - 48)) 0

/-- Captures produced by a match: named groups bound to the consumed text. -/
abbrev Caps := List (String × List Char)

/-- Pattern syntax: the subset of Python `re` used by the repository.
`lit` is a case-insensitive literal (the sources compile with `re.I`),
`cls p lo hi` is a greedy character-class repetition with multiplicity
bounds, `grp` is a named capture group, `opt` a greedy `?`. -/
inductive RE where
  | lit : List Char → RE
  | cls : (Char → Bool) → Nat → Option Nat → RE
  | grp : String → RE → RE
  | seq : RE → RE → RE
  | alt : RE → RE → RE
  | opt : RE → RE
  | eps : RE

/-- Match a case-insensitive literal against the head of the input; returns
the remaining suffix on success. -/
def litM : List Char → List Char → List (List Char)
  | [], s => [s]
  | _ :: _, [] => []
  | l :: ls, c :: cs => if lowCh c = lowCh l then litM ls cs else []

/-- Length of the longest class run at the head of the input. -/
def clsTake (p : Char → Bool) : List Char → Nat
  | [] => 0
  | c :: cs => if p c then clsTake p cs + 1 else 0

/-- Candidate consumption lengths for a greedy repetition, largest first:
`downRange lo hi = [hi, hi - 1, ..., lo]`. -/
def downRange (lo : Nat) : Nat → List Nat
  | 0 => if lo = 0 then [0] else []
  | n + 1 => if n + 1 < lo then [] else (n + 1) :: downRange lo n

/-- All ways to match a pattern against a prefix of the input, as a list of
(remaining suffix, captures) pairs in backtracking priority order. The head
of the list is the match a Python regex engine commits to. -/
def mtch : RE → List Char → Caps → List (List Char × Caps)
  | .eps, s, cp => [(s, cp)]
  | .lit l, s, cp => (litM l s).map (fun r => (r, cp))
  | .cls p lo hi, s, cp =>
    let mx := match hi with
      | none => clsTake p s
      | some h => min (clsTake p s) h
    (downRange lo mx).map (fun k => (s.drop k, cp))
  | .grp n r, s, cp =>
    (mtch r s cp).map (fun pr => (pr.1, (n, s.take (s.length - pr.1.length)) :: pr.2))
  | .seq r1 r2, s, cp => (mtch r1 s cp).flatMap (fun pr => mtch r2 pr.1 pr.2)
  | .alt r1 r2, s, cp => mtch r1 s cp ++ mtch r2 s cp
  | .opt r, s, cp => mtch r s cp ++ [(s, cp)]

/-- Python `re.search`: try each start position from the left, and at the
first position with any match commit to the highest-priority one. -/
def reSearch (r : RE) : List Char → Option Caps
  | [] => ((mtch r [] []).head?).map Prod.snd
  | c :: t =>
    match (mtch r (c :: t) []).head? with
    | some pr => some pr.2
    | none => reSearch r t

/-- Read a named group from the captures; absent groups yield `none`, the
behaviour of `m.groupdict().get(name)`. -/
def capGet (cp : Caps) (n : String) : Option (List Char) := cp.lookup n

namespace SrcTool

/-!
Embedding of `src/conversion_tools.py`.
-/

/-- Alias table `ALIASES` of the module, keys exactly as in the source. -/
def ALIASES : List (String × String) :=
  [("dollar", "USD"), ("usd", "USD"), ("$", "USD"),
   ("euro", "EUR"), ("eur", "EUR"), ("€", "EUR"),
   ("baht", "THB"), ("thb", "THB"), ("฿", "THB"),
   ("pound", "GBP"), ("gbp", "GBP"), ("£", "GBP"),
   ("yen", "JPY"), ("jpy", "JPY"), ("¥", "JPY"),
   ("yuan", "CNY"), ("cny", "CNY"),
   ("rupee", "INR"), ("inr", "INR"), ("₹", "INR"),
   ("won", "KRW"), ("krw", "KRW"), ("₩", "KRW"),
   ("dong", "VND"), ("vnd", "VND"), ("₫", "VND"),
   ("ringgit", "MYR"), ("myr", "MYR"),
   ("peso", "PHP"), ("php", "PHP"),
   ("franc", "CHF"), ("chf", "CHF"),
   ("canadian dollar", "CAD"), ("cad", "CAD"),
   ("australian dollar", "AUD"), ("aud", "AUD"),
   ("singapore dollar", "SGD"), ("sgd", "SGD"),
   ("bitcoin", "BTC"), ("btc", "BTC")]

/-- Fiat code set `FIAT` of the module. -/
def FIAT : List String :=
  ["USD", "EUR", "THB", "GBP", "JPY", "CNY", "INR", "KRW", "VND", "MYR", "PHP",
   "CHF", "CAD", "AUD", "SGD", "HKD", "IDR", "NZD", "SEK", "NOK", "DKK"]

/-- Character class `[A-Za-z$€฿£¥₹₩₫ ]` used by the src and dst groups of the
conversion patterns. -/
def srcClassCh (c : Char) : Bool :=
  isAlphaCh c || c == '$' || c == '€' || c == '฿' || c == '£' || c == '¥' ||
    c == '₹' || c == '₩' || c == '₫' || c == ' '

/-- Currency-symbol class used by the glyph-stripping step of `_norm_code`. -/
def isSymCh (c : Char) : Bool :=
  c == '$' || c == '€' || c == '฿' || c == '£' || c == '¥' ||
    c == '₹' || c == '₩' || c == '₫'

/-- Pattern fragment `\s+`. -/
def ws1 : RE := .cls isWsCh 1 none

/-- Pattern fragment `\s*`. -/
def ws0 : RE := .cls isWsCh 0 none

/-- The `NUM_RE` fragment with named group `amt`. -/
def numRE : RE :=
  .grp "amt" (.seq (.cls isDigitCh 1 none)
    (.opt (.seq (.cls (fun c => c == '.' || c == ',') 1 (some 1)) (.cls isDigitCh 1 none))))

/-- Unbounded src and dst class repetition of patterns 1, 2 and 7. -/
def srcCls : RE := .cls srcClassCh 1 none

/-- Separator alternation of patterns 1, 2 and 7. -/
def toIn : RE := .alt (.lit ['t', 'o']) (.lit ['i', 'n'])

/-- Separator alternation of the `CURR_RE` fragment. -/
def sepAny : RE :=
  .alt (.lit ['t', 'o']) (.alt (.lit ['i', 'n']) (.alt (.lit ['→'])
    (.alt (.lit ['=']) (.alt (.lit ['-', '>']) (.lit ['⇒'])))))

/-- The `CURR_RE` fragment. -/
def currRE : RE :=
  .seq (.grp "src" (.cls srcClassCh 1 (some 20)))
    (.seq ws0 (.seq sepAny (.seq ws0 (.grp "dst" (.cls srcClassCh 1 (some 20))))))

/-- Pattern 1 of `CONVERT_PATTERNS`. -/
def pat1 : RE :=
  .seq (.alt (.lit "convert".data) (.lit "exchange".data))
    (.seq ws1 (.seq numRE (.seq ws1 (.seq (.grp "src" srcCls)
      (.seq ws1 (.seq toIn (.seq ws1 (.grp "dst" srcCls))))))))

/-- Pattern 2 of `CONVERT_PATTERNS`. -/
def pat2 : RE :=
  .seq numRE (.seq ws1 (.seq (.grp "src" srcCls)
    (.seq ws1 (.seq toIn (.seq ws1 (.grp "dst" srcCls))))))

/-- Pattern 3 of `CONVERT_PATTERNS`. -/
def pat3 : RE := .seq (.lit "rate".data) (.seq ws1 (.seq (.lit "for".data) (.seq ws1 currRE)))

/-- Pattern 4 of `CONVERT_PATTERNS`. -/
def pat4 : RE :=
  .seq (.lit "exchange".data) (.seq ws1 (.seq (.lit "rate".data) (.seq ws1 currRE)))

/-- Pattern 5 of `CONVERT_PATTERNS`. -/
def pat5 : RE :=
  .seq (.grp "src" (.alt (.lit "btc".data) (.lit "bitcoin".data)))
    (.seq ws1 (.seq (.lit "price".data)
      (.opt (.seq ws1 (.seq (.lit "in".data) (.seq ws1 (.grp "dst" (.cls isAlphaCh 1 none))))))))

/-- Pattern 6 of `CONVERT_PATTERNS`. -/
def pat6 : RE :=
  .seq (.lit "what".data)
    (.seq (.opt (.alt (.lit [Char.ofNat 39, 's']) (.seq ws1 (.lit "is".data))))
      (.seq ws1 (.seq (.lit "the".data)
        (.seq ws1 (.seq (.opt (.seq (.lit "current".data) ws1))
          (.seq (.opt (.seq (.lit "exchange".data) ws1))
            (.seq (.lit "rate".data) (.seq ws1 (.seq (.lit "for".data)
              (.seq ws1 (.grp "src" (.alt (.lit "btc".data) (.lit "bitcoin".data)))))))))))))

/-- Pattern 7 of `CONVERT_PATTERNS`, the generic fallback. -/
def pat7 : RE :=
  .seq (.grp "src" srcCls) (.seq ws1 (.seq toIn (.seq ws1 (.grp "dst" srcCls))))

/-- The ordered cascade `CONVERT_PATTERNS`. -/
def CONVERT_PATTERNS : List RE := [pat1, pat2, pat3, pat4, pat5, pat6, pat7]

/-- Token normalisation `_norm_code`: strip whitespace, lower-case, delete
dots, look up the alias table, retry after stripping currency glyphs, and
finally accept any bare three-letter alphabetic token upper-cased. -/
def norm_code (raw : List Char) : Option String :=
  let s := ((stripChars isWsCh raw).map lowCh).filter (fun c => !(c == '.'))
  match ALIASES.lookup (String.mk s) with
  | some v => some v
  | none =>
    let s2 := stripChars isSymCh s
    match ALIASES.lookup (String.mk s2) with
    | some v => some v
    | none =>
      if s2.length == 3 && s2.all isAlphaCh then some (String.mk (s2.map upCh)) else none

/-- Rational value of an `amt` capture (digits, optionally a dot and more
digits), the value Python `float` assigns to it. -/
def ratOfAmt (l : List Char) : ℚ :=
  let intPart := l.takeWhile isDigitCh
  match l.drop intPart.length with
  | [] => (digitsVal intPart : ℚ)
  | _ :: frac => (digitsVal intPart : ℚ) + (digitsVal frac : ℚ) / (10 : ℚ) ^ frac.length

/-- The helper `_parse_amount`: search `NUM_RE` in the comma-stripped text
and convert the `amt` group. -/
def parse_amount (text : List Char) : Option ℚ :=
  match reSearch numRE (text.filter (fun c => !(c == ','))) with
  | none => none
  | some cp => (capGet cp "amt").map ratOfAmt

/-- Trigger substrings of `should_use_conversion`, exactly as in the source. -/
def TRIGGERS : List String :=
  ["convert ", "exchange ", "exchange rate", "rate for", "price of",
   " usd", " eur", " thb", " jpy", " cny", " inr", " gbp", " btc", " bitcoin",
   " to thb", " to usd", " to eur", " to btc",
   "$", "€", "฿", "£", "¥", "₹", "₩", "₫"]

/-- Test whether `pat` occurs at the head of the input. -/
def headMatches : List Char → List Char → Bool
  | [], _ => true
  | _ :: _, [] => false
  | p :: ps, c :: cs => p == c && headMatches ps cs

/-- Substring containment, Python `pat in hay`. -/
def containsSub (pat : List Char) : List Char → Bool
  | [] => headMatches pat []
  | c :: t => headMatches pat (c :: t) || containsSub pat t

/-- The pre-filter `should_use_conversion`: case-insensitive substring check
against the trigger list. -/
def should_use_conversion (text : String) : Bool :=
  let tl := text.data.map lowCh
  TRIGGERS.any (fun t => containsSub t.data tl)

/-- Parsed intent dictionary returned by `parse_currency_query`. -/
structure SIntent where
  amount : Option ℚ
  src : String
  dst : Option String
deriving DecidableEq

/-- One iteration of the pattern loop in `parse_currency_query`: search one
pattern, normalise the captured tokens, apply the BTC destination default
and the amount default, and accept when src is resolved and either dst is
resolved or src is BTC. A non-match or a failed acceptance test yields
`none` and the loop moves to the next pattern. -/
def tryPattern (text : List Char) (p : RE) : Option SIntent :=
  match reSearch p text with
  | none => none
  | some cp =>
    let amt := parse_amount text
    let src := (capGet cp "src").bind norm_code
    let dst := (capGet cp "dst").bind norm_code
    let dst := if src == some "BTC" && dst == none then some "USD" else dst
    let amt := if src.isSome && dst.isSome && amt == none then some 1 else amt
    match src with
    | none => none
    | some s => if dst.isSome || s == "BTC" then some ⟨amt, s, dst⟩ else none

/-- The full cascade `parse_currency_query`: first pattern that matches and
passes the acceptance test wins. -/
def parse_currency_query (text : String) : Option SIntent :=
  CONVERT_PATTERNS.findSome? (tryPattern text.data)

/-- External world of the module: the ExchangeRate-API pair endpoint and the
CoinGecko simple-price endpoint (keyed by lower-case vs currency). A `none`
answer stands for a transport failure or a response without the expected
field. -/
structure SWorld where
  pairRate : String → String → Option ℚ
  btcVs : String → Option ℚ

/-- Fuelled base-10 logarithm on naturals: number of divisions by ten until
the value drops below ten. -/
def log10fuel : Nat → Nat → Nat
  | 0, _ => 0
  | fuel + 1, n => if n < 10 then 0 else log10fuel fuel (n / 10) + 1

/-- Base-10 logarithm of a natural number (zero on zero). -/
def natLog10 (n : Nat) : Nat := log10fuel n n

/-- Exact integer value of `math.floor(math.log10(abs(x)))` for nonzero
rational `x` (zero input is mapped to zero; the caller guards it). -/
def floorLog10 (x : ℚ) : ℤ :=
  let a := |x|
  if a = 0 then 0
  else if 1 ≤ a then (natLog10 ⌊a⌋.toNat : ℤ)
  else
    let n := natLog10 ⌊a⁻¹⌋.toNat
    if 1 ≤ a * (10 : ℚ) ^ n then -(n : ℤ) else -(n : ℤ) - 1

/-- Rounding to `d` decimal places, the effect of formatting with `.df` and
reading the result back (rounding half upward in this model). -/
def roundToDec (d : Nat) (x : ℚ) : ℚ :=
  (⌊x * (10 : ℚ) ^ d + 1 / 2⌋ : ℚ) / (10 : ℚ) ^ d

/-- The `_smart_round` helper of `perform_conversion`: zero stays zero;
otherwise the magnitude is clamped to `[-6, 6]`, subtracted from six, and
the resulting decimal count is clamped to `[2, 6]`. -/
def smart_round (x : ℚ) : ℚ :=
  if x = 0 then 0
  else
    let mags : ℤ := max (-6) (min 6 (floorLog10 x))
    let sig : ℤ := 6 - mags
    roundToDec (max 2 (min 6 sig)).toNat x

/-- The `_fetch_fiat_rate` helper: fail when the environment key is empty,
answer one for a same-currency pair without a request, otherwise issue one
GET against the pair endpoint (recorded in the returned log). -/
def fetch_fiat_rate (key : String) (w : SWorld) (src dst : String) :
    Except String (ℚ × String) × List String :=
  if key = "" then (.error "Missing EXCHANGERATE_API_KEY in environment.", [])
  else if src = dst then (.ok (1, "EXR (pair, same-currency)"), [])
  else
    match w.pairRate src dst with
    | some r => (.ok (r, "ExchangeRate-API"), ["GET pair/" ++ src ++ "/" ++ dst])
    | none => (.error "ExchangeRate-API error", ["GET pair/" ++ src ++ "/" ++ dst])

/-- The `_fetch_btc_to_fiat` helper: one GET against the CoinGecko endpoint. -/
def fetch_btc_to_fiat (w : SWorld) (dst : String) :
    Except String (ℚ × String) × List String :=
  match w.btcVs (lowStr dst) with
  | some v => (.ok (v, "CoinGecko"), ["GET simple/price?vs=" ++ lowStr dst])
  | none => (.error ("CoinGecko: no BTC->" ++ dst ++ " price"), ["GET simple/price?vs=" ++ lowStr dst])

/-- The `_fetch_rate` dispatcher: BTC to supported fiat goes to CoinGecko,
fiat to fiat goes to the keyed pair endpoint, anything else is an
unsupported pair. -/
def fetch_rate (key : String) (w : SWorld) (src dst : String) :
    Except String (ℚ × String) × List String :=
  if src = "BTC" && (!(dst = "") && FIAT.contains dst) then fetch_btc_to_fiat w dst
  else if FIAT.contains src && FIAT.contains dst then fetch_fiat_rate key w src dst
  else (.error ("Unsupported currency pair " ++ src ++ "->" ++ dst), [])

/-- Result record of `perform_conversion` (the timestamp and the normalised
query string of the source carry no information modelled here). -/
structure SResult where
  amount : ℚ
  src : String
  dst : String
  rate : ℚ
  converted_amount : ℚ
  source : String
deriving DecidableEq

/-- The `perform_conversion` entry point: default the destination (USD for
BTC, THB otherwise), resolve the rate, default the amount to one, multiply
and smart-round. The second component is the log of performed GETs. -/
def perform_conversion (key : String) (w : SWorld) (amount : Option ℚ) (src dst : String) :
    Except String SResult × List String :=
  let dst := if dst = "" then (if src = "BTC" then "USD" else "THB") else dst
  match fetch_rate key w src dst with
  | (.error e, log) => (.error e, log)
  | (.ok (rate, source), log) =>
    let amount := amount.getD 1
    (.ok { amount := amount, src := src, dst := dst, rate := rate,
           converted_amount := smart_round (rate * amount), source := source }, log)

end SrcTool

namespace UtilsTool

/-!
Embedding of `utils/conversion_tools.py` (class `CurrencyTool`). The class
fields `default_target` and `ttl_seconds` are passed explicitly; the two
cache dictionaries and the performed requests are threaded through `UState`.
-/

/-- Symbol table `_SYMBOL_TO_CODE`. -/
def SYMBOL_TO_CODE : List (String × String) :=
  [("$", "USD"), ("€", "EUR"), ("£", "GBP"), ("¥", "JPY"), ("฿", "THB")]

/-- Alias table `_ALIAS_TO_CODE`. -/
def ALIAS_TO_CODE : List (String × String) :=
  [("usd", "USD"), ("usdt", "USDT"),
   ("eur", "EUR"), ("gbp", "GBP"), ("jpy", "JPY"), ("thb", "THB"),
   ("aud", "AUD"), ("cad", "CAD"), ("chf", "CHF"), ("cny", "CNY"),
   ("hkd", "HKD"), ("sgd", "SGD"), ("inr", "INR"), ("krw", "KRW"),
   ("vnd", "VND"), ("idr", "IDR"), ("myr", "MYR"), ("php", "PHP"),
   ("twd", "TWD"), ("nzd", "NZD"), ("sek", "SEK"), ("nok", "NOK"),
   ("dkk", "DKK"), ("mxn", "MXN"), ("zar", "ZAR"), ("try", "TRY"),
   ("btc", "BTC"), ("bitcoin", "BTC")]

/-- The `normalize_code` method: empty tokens fail; strip whitespace; exact
symbol-glyph match; lower-cased alias match; bare three-letter alphabetic
tokens are accepted upper-cased. -/
def normalize_code (token : String) : Option String :=
  if token.data.isEmpty then none
  else
    let t := stripChars isWsCh token.data
    match SYMBOL_TO_CODE.lookup (String.mk t) with
    | some v => some v
    | none =>
      match ALIAS_TO_CODE.lookup (String.mk (t.map lowCh)) with
      | some v => some v
      | none =>
        if t.length == 3 && t.all isAlphaCh then some (String.mk (t.map upCh)) else none

/-- External world of the class: full rate tables of the keyless fiat
endpoint (one table per base code), and CoinGecko spot prices keyed by
lower-case vs code. -/
structure UWorld where
  fiatTables : String → List (String × ℚ)
  btcPrice : String → Option ℚ

/-- Mutable state of a `CurrencyTool` instance: the two caches, plus
instrumentation logs — keys read from each cache and keys fetched over the
network. -/
structure UState where
  fiatCache : List (String × (Nat × List (String × ℚ)))
  cryptoCache : List (String × (Nat × ℚ))
  fiatReads : List String
  cryptoReads : List String
  fiatFetches : List String
  cryptoFetches : List String

/-- Fresh instance state: empty caches and logs. -/
def initState : UState := ⟨[], [], [], [], [], []⟩

/-- The `_fetch_fiat_rates` method: upper-case the base, consult the cache,
answer the cached table when its age is below the TTL, otherwise fetch the
full table for the base and overwrite the cache slot with the current
instant. -/
def fetchFiatRates (w : UWorld) (ttl now : Nat) (st : UState) (base : String) :
    List (String × ℚ) × UState :=
  let b := upStr base
  let st := { st with fiatReads := st.fiatReads ++ [b] }
  match st.fiatCache.lookup b with
  | some (t, rates) =>
    if now - t < ttl then (rates, st)
    else
      let rates := w.fiatTables b
      (rates, { st with
                  fiatCache := (b, (now, rates)) :: st.fiatCache,
                  fiatFetches := st.fiatFetches ++ [b] })
  | none =>
    let rates := w.fiatTables b
    (rates, { st with
                fiatCache := (b, (now, rates)) :: st.fiatCache,
                fiatFetches := st.fiatFetches ++ [b] })

/-- The `get_fiat_rate` method: one for a same pair, else read the base
table; on a direct hit answer it, else triangulate through USD with a second
table read, and fail with an unsupported-currency error when the target is
absent from both tables or USD is absent from the base table. -/
def get_fiat_rate (w : UWorld) (ttl now : Nat) (st : UState) (base target : String) :
    Except String ℚ × UState :=
  let b := upStr base
  let t := upStr target
  if b = t then (.ok 1, st)
  else
    let (rates, st1) := fetchFiatRates w ttl now st b
    match rates.lookup t with
    | some r => (.ok r, st1)
    | none =>
      match rates.lookup "USD" with
      | some usd_rate =>
        let (ratesUsd, st2) := fetchFiatRates w ttl now st1 "USD"
        match ratesUsd.lookup t with
        | some r2 => (.ok (usd_rate * r2), st2)
        | none => (.error ("Unsupported target currency: " ++ t), st2)
      | none => (.error ("Unsupported target currency: " ++ t), st1)

/-- The `get_btc_rate` method: cache key `bitcoin|vs` with the vs code
lower-cased; fresh entries are answered from the cache, otherwise one
request is made and the price cached (no cache write when the response
lacks the price). -/
def get_btc_rate (w : UWorld) (ttl now : Nat) (st : UState) (vs_code : String) :
    Except String ℚ × UState :=
  let cgvs := lowStr (upStr vs_code)
  let key := "bitcoin|" ++ cgvs
  let st := { st with cryptoReads := st.cryptoReads ++ [key] }
  match st.cryptoCache.lookup key with
  | some (t, p) =>
    if now - t < ttl then (.ok p, st)
    else
      let st := { st with cryptoFetches := st.cryptoFetches ++ [key] }
      match w.btcPrice cgvs with
      | some p => (.ok p, { st with cryptoCache := (key, (now, p)) :: st.cryptoCache })
      | none => (.error "CoinGecko response unexpected", st)
  | none =>
    let st := { st with cryptoFetches := st.cryptoFetches ++ [key] }
    match w.btcPrice cgvs with
    | some p => (.ok p, { st with cryptoCache := (key, (now, p)) :: st.cryptoCache })
    | none => (.error "CoinGecko response unexpected", st)

/-- The `convert` method: normalise both codes, route BTC legs to CoinGecko
(with the unit price inverted on the fiat-to-BTC leg), a BTC-to-BTC pair to
the constant one, and fiat pairs to `get_fiat_rate`. Answers
(converted amount, unit rate, provider label). -/
def convert (w : UWorld) (ttl now : Nat) (st : UState) (amount : ℚ)
    (from_code to_code : String) : Except String (ℚ × ℚ × String) × UState :=
  match normalize_code from_code with
  | none => (.error ("Unknown source currency: " ++ from_code), st)
  | some f =>
    match normalize_code to_code with
    | none => (.error ("Unknown target currency: " ++ to_code), st)
    | some t =>
      if f = "BTC" && !(t = "BTC") then
        match get_btc_rate w ttl now st t with
        | (.ok rate, st1) => (.ok (amount * rate, rate, "CoinGecko"), st1)
        | (.error e, st1) => (.error e, st1)
      else if t = "BTC" && !(f = "BTC") then
        match get_btc_rate w ttl now st f with
        | (.ok price, st1) => (.ok (amount * (1 / price), 1 / price, "CoinGecko"), st1)
        | (.error e, st1) => (.error e, st1)
      else if f = "BTC" && t = "BTC" then (.ok (amount, 1, "CoinGecko"), st)
      else
        match get_fiat_rate w ttl now st f t with
        | (.ok rate, st1) => (.ok (amount * rate, rate, "exchangerate.host"), st1)
        | (.error e, st1) => (.error e, st1)

/-- Intent dictionaries returned by `try_parse`. -/
inductive UIntent where
  | convert (amount : ℚ) (src dst : String)
  | rate (src : String) (dst : Option String)
deriving DecidableEq

/-- Class `[$€£¥฿]` of the `CurrencyTool` patterns. -/
def symCls5 (c : Char) : Bool :=
  c == '$' || c == '€' || c == '£' || c == '¥' || c == '฿'

/-- Token fragment `[A-Za-z]{3}|[$€£¥฿]`. -/
def codeTok : RE := .alt (.cls isAlphaCh 3 (some 3)) (.cls symCls5 1 (some 1))

/-- Fragment `\s+`. -/
def uws1 : RE := .cls isWsCh 1 none

/-- Fragment `\s*`. -/
def uws0 : RE := .cls isWsCh 0 none

/-- The `_CONVERT_RE` pattern of `CurrencyTool` (verbose mode flattened). -/
def convertRE : RE :=
  .seq (.grp "verb" (.alt (.lit "convert".data) (.alt (.lit "แปลง".data)
      (.alt (.lit "แลก".data) (.lit "exchange".data)))))
    (.seq uws0 (.seq (.grp "amount" (.seq (.cls isDigitCh 1 (some 1))
        (.cls (fun c => isDigitCh c || c == ',' || c == '.') 0 none)))
      (.seq uws0 (.seq (.grp "src" codeTok)
        (.opt (.seq uws0 (.seq (.alt (.lit "to".data) (.alt (.lit "เป็น".data)
            (.alt (.lit "->".data) (.lit "in".data))))
          (.seq uws0 (.grp "dst" codeTok)))))))))

/-- Dot-any fragment `.*` (newline excluded, DOTALL is off). -/
def dotAny : RE := .cls (fun c => !(c == Char.ofNat 10)) 0 none

/-- The `_RATE_RE` pattern of `CurrencyTool`. -/
def rateRE : RE :=
  .seq (.alt (.lit "rate".data) (.alt (.lit "อัตรา".data) (.alt (.lit "ราคา".data)
      (.alt (.seq (.lit "exchange".data) (.seq uws0 (.lit "rate".data)))
        (.lit "เท่าไหร่".data)))))
    (.seq dotAny (.seq (.grp "src" (.alt (.lit "btc".data) (.alt (.lit "bitcoin".data) codeTok)))
      (.opt (.seq uws0 (.seq (.alt (.lit "to".data) (.alt (.lit "เป็น".data) (.lit "in".data)))
        (.seq uws0 (.grp "dst" codeTok)))))))

/-- The inline simple pattern of `try_parse` (AMOUNT SRC to DST). -/
def simpleRE : RE :=
  .seq (.grp "amount" (.seq (.cls isDigitCh 1 (some 1))
      (.cls (fun c => isDigitCh c || c == ',' || c == '.') 0 none)))
    (.seq uws0 (.seq (.grp "src" codeTok)
      (.seq uws0 (.seq (.alt (.lit "to".data) (.alt (.lit "->".data) (.lit "เป็น".data)))
        (.seq uws0 (.grp "dst" codeTok))))))

/-- The `_safe_float` helper: drop commas and read a decimal number,
answering `none` when Python `float` would raise. -/
def safe_float (l : List Char) : Option ℚ :=
  let l := l.filter (fun c => !(c == ','))
  let intPart := l.takeWhile isDigitCh
  if intPart.isEmpty then none
  else
    match l.drop intPart.length with
    | [] => some (digitsVal intPart : ℚ)
    | sep :: frac =>
      if sep == '.' && frac.all isDigitCh then
        some ((digitsVal intPart : ℚ) + (digitsVal frac : ℚ) / (10 : ℚ) ^ frac.length)
      else none

/-- The `try_parse` method: the convert pattern (destination falling back to
the configured default target), then the rate pattern (absent destination
token replaced by the default target before normalisation), then the simple
pattern requiring all three groups. -/
def try_parse (default_target : String) (text : String) : Option UIntent :=
  let tl := text.data
  let conv : Option UIntent :=
    match reSearch convertRE tl with
    | none => none
    | some cp =>
      match (capGet cp "amount").bind safe_float with
      | none => none
      | some amt =>
        match (capGet cp "src").bind (fun r => normalize_code (String.mk r)) with
        | none => none
        | some src =>
          let dst := (capGet cp "dst").bind (fun r => normalize_code (String.mk r))
          some (.convert amt src (dst.getD default_target))
  match conv with
  | some r => some r
  | none =>
    let rateI : Option UIntent :=
      match reSearch rateRE tl with
      | none => none
      | some cp =>
        match (capGet cp "src").bind (fun r => normalize_code (String.mk r)) with
        | none => none
        | some src =>
          let dst := match capGet cp "dst" with
            | some d => normalize_code (String.mk d)
            | none => some default_target
          some (.rate src dst)
    match rateI with
    | some r => some r
    | none =>
      match reSearch simpleRE tl with
      | none => none
      | some cp =>
        match (capGet cp "amount").bind safe_float with
        | none => none
        | some amt =>
          match (capGet cp "src").bind (fun r => normalize_code (String.mk r)) with
          | none => none
          | some src =>
            match (capGet cp "dst").bind (fun r => normalize_code (String.mk r)) with
            | none => none
            | some dst => some (.convert amt src dst)

end UtilsTool


/-- Module-level read of the environment key in `src/conversion_tools.py`:
`os.getenv("EXCHANGERATE_API_KEY", "").strip()`. A missing variable gives
the empty string; the read itself never fails. -/
def SrcTool.EXCHANGERATE_API_KEY (env : Option String) : String :=
  String.mk (stripChars isWsCh (env.getD "").data)

/-- Concrete external world used to instantiate theorems about the keyed
module: every pair quote is 21, every spot price is 43000. -/
def Wex : SrcTool.SWorld := ⟨fun _ _ => some 21, fun _ => some 43000⟩

/-- Concrete external world for `CurrencyTool` instantiations: a THB spot
price of 100 and one fixed fiat table per base. -/
def WexU : UtilsTool.UWorld :=
  ⟨fun b => if b == "EUR" then [("USD", 2)] else
      (if b == "USD" then [("EUR", 3), ("THB", 37)] else []),
    fun v => if v == "thb" then some 100 else none⟩

/-- Distribute `List.flatMap` over a branch so that failed branches can
collapse. -/
theorem ite_flatMap {α β : Type} {c : Prop} [Decidable c] (x y : List α) (f : α → List β) :
    (if c then x else y).flatMap f = if c then x.flatMap f else y.flatMap f := by
  split <;> rfl

/-- Distribute `List.map` over a branch. -/
theorem ite_listMap {α β : Type} {c : Prop} [Decidable c] (x y : List α) (f : α → β) :
    (if c then x else y).map f = if c then x.map f else y.map f := by
  split <;> rfl

/-- Distribute list append over a branch. -/
theorem ite_append {α : Type} {c : Prop} [Decidable c] (x y z : List α) :
    (if c then x else y) ++ z = if c then x ++ z else y ++ z := by
  split <;> rfl

/-- Distribute `List.head?` over a branch. -/
theorem ite_head? {α : Type} {c : Prop} [Decidable c] (x y : List α) :
    (if c then x else y).head? = if c then x.head? else y.head? := by
  split <;> rfl

/-- Distribute `Option.map` over a branch. -/
theorem ite_optMap {α β : Type} {c : Prop} [Decidable c] (x y : Option α) (f : α → β) :
    (if c then x else y).map f = if c then x.map f else y.map f := by
  split <;> rfl

/-- Letters are in the free-text currency-token class. -/
theorem srcClass_alpha {c : Char} (h : isAlphaCh c = true) : SrcTool.srcClassCh c = true := by
  simp [SrcTool.srcClassCh, h]

/-- Letters are not whitespace. -/
theorem ws_alpha {c : Char} (h : isAlphaCh c = true) : isWsCh c = false := by
  simp only [isAlphaCh, Bool.or_eq_true, Bool.and_eq_true, decide_eq_true_eq] at h
  simp only [isWsCh, Bool.or_eq_false_iff, decide_eq_false_iff_not]
  omega

/-- Letters are not digits. -/
theorem digit_alpha {c : Char} (h : isAlphaCh c = true) : isDigitCh c = false := by
  simp only [isAlphaCh, Bool.or_eq_true, Bool.and_eq_true, decide_eq_true_eq] at h
  simp only [isDigitCh, Bool.and_eq_false_iff, decide_eq_false_iff_not]
  omega

/-- Claim C5 (counterexample): the third literal case of the spec,
`parse("what is the exchange rate for bitcoin")`, does not yield the
configured default destination (THB in both module configurations): the
cascade answers the hard-coded BTC default USD. -/
theorem parse_bitcoin_rate_default_cex :
    SrcTool.parse_currency_query "what is the exchange rate for bitcoin" =
      some ⟨some 1, "BTC", some "USD"⟩ ∧ ("USD" : String) ≠ "THB" :=
  ⟨by decide, by decide⟩

/-- Claim C5 (amended): the literal parser cases, with the third case
corrected to destination USD: `parse("convert 100 USD to EUR")` gives
amount 100 and the pair USD, EUR; `parse("btc price")` gives amount 1 and
the pair BTC, USD; `parse("what is the exchange rate for bitcoin")` gives
amount 1 and the pair BTC, USD (not the configured default); and
`parse("hello, how are you?")` yields no intent. -/
theorem parse_literal_cases :
    SrcTool.parse_currency_query "convert 100 USD to EUR" =
      some ⟨some 100, "USD", some "EUR"⟩ ∧
    SrcTool.parse_currency_query "btc price" = some ⟨some 1, "BTC", some "USD"⟩ ∧
    SrcTool.parse_currency_query "what is the exchange rate for bitcoin" =
      some ⟨some 1, "BTC", some "USD"⟩ ∧
    SrcTool.parse_currency_query "hello, how are you?" = none :=
  ⟨by decide, by decide, by decide, by decide⟩

/-- Claim C6 (counterexample): the pre-filter rejects the text `btc price`
even though the pattern cascade accepts it, so the pre-filter is not
complete with respect to the cascade. -/
theorem prefilter_rejects_parseable_cex :
    SrcTool.should_use_conversion "btc price" = false ∧
    SrcTool.parse_currency_query "btc price" = some ⟨some 1, "BTC", some "USD"⟩ :=
  ⟨by decide, by decide⟩

/-- Claim C6 (amended): the pre-filter is not a completeness gate for the
cascade: there is a text the cascade parses into an intent that
`should_use_conversion` rejects. -/
theorem prefilter_incomplete :
    ∃ t : String, (SrcTool.parse_currency_query t).isSome = true ∧
      SrcTool.should_use_conversion t = false :=
  ⟨"btc price", by decide, by decide⟩

/-- Claim C3 (counterexample): in the keyed module a BTC to BTC conversion
does not return the amount with rate one; `_fetch_rate` rejects the pair as
unsupported, with no network call. -/
theorem convert_btc_btc_unsupported_cex :
    SrcTool.perform_conversion "k" Wex (some 5) "BTC" "BTC" =
      (.error "Unsupported currency pair BTC->BTC", []) := by
  decide

/-- Claim C4 (counterexample): in the keyed module a fiat to BTC conversion
is rejected as an unsupported pair even though the crypto price provider
supports the fiat code, so no reciprocal rate is ever produced there. -/
theorem fetch_rate_fiat_to_btc_cex :
    SrcTool.perform_conversion "k" Wex (some 1) "THB" "BTC" =
      (.error "Unsupported currency pair THB->BTC", []) ∧
    (Wex.btcVs "thb").isSome = true :=
  ⟨by decide, by decide⟩

/-- Claim C7 (counterexample): the `CurrencyTool` parser does not default a
BTC source with no captured destination to USD: with the default
configuration it answers the configured default target THB. -/
theorem try_parse_btc_default_target_cex :
    UtilsTool.try_parse "THB" "convert 1 btc" = some (.convert 1 "BTC" "THB") ∧
    ("THB" : String) ≠ "USD" :=
  ⟨by decide, by decide⟩

/-- Claim C8 (counterexample): with the environment key absent, a
same-currency fiat conversion in the keyed module fails with the
missing-credential error, because the key check precedes the same-currency
shortcut. -/
theorem missing_key_same_currency_cex :
    (SrcTool.perform_conversion "" Wex (some 1) "USD" "USD").1 =
      .error "Missing EXCHANGERATE_API_KEY in environment." := by
  decide

/-- Claim C7 (amended, keyed-module part): in `parse_currency_query`, any
pattern match whose src token normalises to BTC and whose dst capture
normalises to nothing is accepted with destination defaulted to USD and
amount defaulted to one when the text carries no number. In the
`CurrencyTool` parser the analogous default is the configured target, not
USD. -/
theorem parse_btc_defaults_usd (text : List Char) (p : RE) (cp : Caps)
    (hs : reSearch p text = some cp)
    (hsrc : (capGet cp "src").bind SrcTool.norm_code = some "BTC")
    (hdst : (capGet cp "dst").bind SrcTool.norm_code = none) :
    SrcTool.tryPattern text p =
      some ⟨some ((SrcTool.parse_amount text).getD 1), "BTC", some "USD"⟩ := by
  simp only [SrcTool.tryPattern, hs, hsrc, hdst]
  cases hamt : SrcTool.parse_amount text <;> simp [hamt]

/-- Claim C7 (witness): the BTC default applied on the concrete text
`btc price` through pattern 5 of the cascade. -/
theorem parse_btc_defaults_usd_witness :
    SrcTool.tryPattern "btc price".data SrcTool.pat5 = some ⟨some 1, "BTC", some "USD"⟩ := by
  have h := parse_btc_defaults_usd "btc price".data SrcTool.pat5 [("src", "btc".data)]
    (by decide) (by decide) (by decide)
  simpa using h

/-- Claim C8 (amended): with the environment key absent (empty after the
default), every conversion routed to the keyed fiat provider fails with the
missing-credential error — including same-currency fiat pairs, since the
key check precedes the same-currency shortcut; the module-level read of a
missing variable yields the empty string and never fails; and crypto-leg
conversions succeed without the key. -/
theorem missing_key_behavior :
    (∀ (w : SrcTool.SWorld) (a : Option ℚ) (src dst : String),
      src ∈ SrcTool.FIAT → dst ∈ SrcTool.FIAT →
      (SrcTool.perform_conversion "" w a src dst).1 =
        .error "Missing EXCHANGERATE_API_KEY in environment.") ∧
    SrcTool.EXCHANGERATE_API_KEY none = "" ∧
    (∀ (w : SrcTool.SWorld) (a : Option ℚ) (dst : String) (p : ℚ),
      dst ∈ SrcTool.FIAT → w.btcVs (lowStr dst) = some p →
      (SrcTool.perform_conversion "" w a "BTC" dst).1 =
        .ok ⟨a.getD 1, "BTC", dst, p, SrcTool.smart_round (p * a.getD 1), "CoinGecko"⟩) := by
  refine ⟨fun w a src dst hsrc hdst => ?_, by decide, fun w a dst p hdst hp => ?_⟩
  · have h1 : dst ≠ "" := by rintro rfl; revert hdst; decide
    have h2 : src ≠ "BTC" := by rintro rfl; revert hsrc; decide
    have h3 : SrcTool.FIAT.contains src = true := List.elem_eq_true_of_mem hsrc
    have h4 : SrcTool.FIAT.contains dst = true := List.elem_eq_true_of_mem hdst
    simp [SrcTool.perform_conversion, SrcTool.fetch_rate, SrcTool.fetch_fiat_rate,
      h1, h2, List.contains, h3, h4, hsrc, hdst]
  · have h1 : dst ≠ "" := by rintro rfl; revert hdst; decide
    have h4 : SrcTool.FIAT.contains dst = true := List.elem_eq_true_of_mem hdst
    simp [SrcTool.perform_conversion, SrcTool.fetch_rate, SrcTool.fetch_btc_to_fiat,
      h1, List.contains, h4, hp, hdst]

/-- Claim C8 (witness): the missing-key failure on a fiat pair and the
unimpeded crypto leg, at concrete inputs. -/
theorem missing_key_behavior_witness :
    (SrcTool.perform_conversion "" Wex (some 1) "USD" "THB").1 =
      .error "Missing EXCHANGERATE_API_KEY in environment." ∧
    (SrcTool.perform_conversion "" Wex (some 1) "BTC" "THB").1 =
      .ok ⟨(some (1 : ℚ)).getD 1, "BTC", "THB", 43000,
        SrcTool.smart_round (43000 * (some (1 : ℚ)).getD 1), "CoinGecko"⟩ :=
  ⟨missing_key_behavior.1 Wex (some 1) "USD" "THB" (by decide) (by decide),
   missing_key_behavior.2.2 Wex (some 1) "THB" 43000 (by decide) (by decide)⟩

/-- Claim C3 (amended): identity conversions. In `CurrencyTool`, converting
any normalisable code to itself answers the amount unchanged with rate one
and an untouched state (hence no network call), labelled CoinGecko for BTC
and exchangerate.host otherwise. In the keyed module the same holds for
supported fiat codes only when the key is present — the answer is rate one
with the smart-rounded amount and an empty request log — while BTC to BTC
is rejected as an unsupported pair. -/
theorem convert_identity :
    (∀ (w : UtilsTool.UWorld) (ttl now : Nat) (st : UtilsTool.UState) (a : ℚ) (X c : String),
      UtilsTool.normalize_code X = some c →
      UtilsTool.convert w ttl now st a X X =
        (.ok (a, 1, if c = "BTC" then "CoinGecko" else "exchangerate.host"), st)) ∧
    (∀ (key : String) (w : SrcTool.SWorld) (a : ℚ) (F : String),
      key ≠ "" → F ∈ SrcTool.FIAT →
      SrcTool.perform_conversion key w (some a) F F =
        (.ok ⟨a, F, F, 1, SrcTool.smart_round a, "EXR (pair, same-currency)"⟩, [])) := by
  constructor
  · intro w ttl now st a X c hX
    by_cases hc : c = "BTC"
    · subst hc
      simp [UtilsTool.convert, hX]
    · simp [UtilsTool.convert, hX, hc, UtilsTool.get_fiat_rate, mul_one]
  · intro key w a F hkey hF
    have h1 : F ≠ "" := by rintro rfl; revert hF; decide
    have h2 : F ≠ "BTC" := by rintro rfl; revert hF; decide
    have h3 : SrcTool.FIAT.contains F = true := List.elem_eq_true_of_mem hF
    simp [SrcTool.perform_conversion, SrcTool.fetch_rate, SrcTool.fetch_fiat_rate,
      h1, h2, hkey, List.contains, h3, hF, one_mul]

/-- Claim C3 (witness): identity conversion at concrete inputs in both
modules. -/
theorem convert_identity_witness :
    UtilsTool.convert WexU 300 0 UtilsTool.initState 7 "usd" "usd" =
      (.ok (7, 1, "exchangerate.host"), UtilsTool.initState) ∧
    SrcTool.perform_conversion "k" Wex (some 5) "THB" "THB" =
      (.ok ⟨5, "THB", "THB", 1, SrcTool.smart_round 5, "EXR (pair, same-currency)"⟩, []) :=
  ⟨by simpa using convert_identity.1 WexU 300 0 UtilsTool.initState 7 "usd" "USD" (by decide),
   convert_identity.2 "k" Wex 5 "THB" (by decide) (by decide)⟩

/-- Claim C4 (amended): crypto inversion holds in `CurrencyTool`: when the
spot price lookup for a non-BTC code `c` answers `p`, the fiat-to-BTC leg
uses rate `1 / p`, the BTC-to-fiat leg from the same state uses rate `p`
(same spot price), and for a nonzero price the two rates are reciprocal.
In the keyed module the fiat-to-BTC direction is rejected as an
unsupported pair instead (see the counterexample). -/
theorem convert_crypto_inversion (w : UtilsTool.UWorld) (ttl now : Nat)
    (st : UtilsTool.UState) (a : ℚ) (F c : String) (p : ℚ)
    (hc : UtilsTool.normalize_code F = some c) (hcb : c ≠ "BTC")
    (hp : (UtilsTool.get_btc_rate w ttl now st c).1 = .ok p) (hp0 : p ≠ 0) :
    (UtilsTool.convert w ttl now st a F "BTC").1 = .ok (a * (1 / p), 1 / p, "CoinGecko") ∧
    (UtilsTool.convert w ttl now st a "BTC" F).1 = .ok (a * p, p, "CoinGecko") ∧
    (1 / p) * p = 1 := by
  have hbtc : UtilsTool.normalize_code "BTC" = some "BTC" := by decide
  refine ⟨?_, ?_, one_div_mul_cancel hp0⟩
  · simp only [UtilsTool.convert, hc, hbtc, hcb, if_false]
    rcases hr : UtilsTool.get_btc_rate w ttl now st c with ⟨r, st2⟩
    rw [hr] at hp
    simp only at hp
    subst hp
    simp [hcb]
  · rcases hr : UtilsTool.get_btc_rate w ttl now st c with ⟨r, st2⟩
    rw [hr] at hp
    simp only at hp
    subst hp
    simp [UtilsTool.convert, hc, hbtc, hcb, hr]

/-- Claim C4 (witness): inversion at a concrete world with spot price 100
for THB. -/
theorem convert_crypto_inversion_witness :
    (UtilsTool.convert WexU 300 0 UtilsTool.initState 2 "THB" "BTC").1 =
      .ok (2 * (1 / 100), 1 / 100, "CoinGecko") ∧
    (UtilsTool.convert WexU 300 0 UtilsTool.initState 2 "BTC" "THB").1 =
      .ok (2 * 100, 100, "CoinGecko") ∧
    ((1 : ℚ) / 100) * 100 = 1 :=
  convert_crypto_inversion WexU 300 0 UtilsTool.initState 2 "THB" "THB" 100
    (by decide) (by decide) (by rfl) (by norm_num)

/-- Claim C1 (counterexample): the triangulation equation fails when base
and target are equal: with EUR absent from its own table, USD present in it
and EUR present in the USD table, `get_fiat_rate(EUR, EUR)` answers the
same-currency shortcut 1, not the product 2 * 3 the claim prescribes. -/
theorem get_fiat_rate_self_triangulation_cex :
    ((WexU.fiatTables "EUR").lookup "EUR" = none) ∧
    ((WexU.fiatTables "EUR").lookup "USD" = some 2) ∧
    ((WexU.fiatTables "USD").lookup "EUR" = some 3) ∧
    (UtilsTool.get_fiat_rate WexU 300 0 UtilsTool.initState "EUR" "EUR").1 = .ok 1 ∧
    (1 : ℚ) ≠ 2 * 3 :=
  ⟨by decide, by decide, by decide, by decide, by norm_num⟩

/-- Claim C1 (amended): for distinct canonical fiat codes, with the target
absent from the freshly fetched base table, `get_fiat_rate` answers the
product of the base-to-USD rate and the USD-table target rate, and fails
with the unsupported-currency error when USD is absent from the base table
or the target is absent from the USD table. -/
theorem get_fiat_rate_triangulation (w : UtilsTool.UWorld) (now : Nat) (base target : String)
    (hb : upStr base = base) (ht : upStr target = target) (hne : base ≠ target)
    (habs : (w.fiatTables base).lookup target = none) :
    (UtilsTool.get_fiat_rate w 300 now UtilsTool.initState base target).1 =
      match (w.fiatTables base).lookup "USD" with
      | some r1 =>
        match (w.fiatTables "USD").lookup target with
        | some r2 => .ok (r1 * r2)
        | none => .error ("Unsupported target currency: " ++ target)
      | none => .error ("Unsupported target currency: " ++ target)
    := by
  have hUSD : upStr "USD" = "USD" := by decide
  by_cases hBU : base = "USD"
  · subst hBU
    simp only [UtilsTool.get_fiat_rate, UtilsTool.fetchFiatRates, UtilsTool.initState,
      hUSD, ht, List.lookup_nil, if_neg hne, habs]
    cases husd : List.lookup "USD" (w.fiatTables "USD") with
    | none => simp [husd]
    | some r1 => simp [husd, List.lookup, habs]
  · have hBU2 : ("USD" : String) ≠ base := Ne.symm hBU
    simp only [UtilsTool.get_fiat_rate, UtilsTool.fetchFiatRates, UtilsTool.initState,
      hb, ht, List.lookup_nil, if_neg hne, habs, hUSD]
    cases husd : List.lookup "USD" (w.fiatTables base) with
    | none => simp [husd]
    | some r1 =>
      have hfb : (("USD" : String) == base) = false := beq_eq_false_iff_ne.mpr hBU2
      simp only [husd, List.lookup, hfb]
      cases ht2 : List.lookup target (w.fiatTables "USD") with
      | none => simp [ht2]
      | some r2 => simp [ht2]

/-- Claim C1 (witness): triangulation at a concrete world: EUR to THB via
USD gives 2 * 37. -/
theorem get_fiat_rate_triangulation_witness :
    (UtilsTool.get_fiat_rate WexU 300 0 UtilsTool.initState "EUR" "THB").1 = .ok (2 * 37) := by
  have h := get_fiat_rate_triangulation WexU 0 "EUR" "THB" (by decide) (by decide)
    (by decide) (by decide)
  simpa [WexU] using h

/-- Bracketing of the fuelled logarithm: with enough fuel it is the floor of
the base-10 logarithm. -/
theorem log10fuel_bracket : ∀ (fuel n : Nat), 0 < n → n ≤ fuel →
    10 ^ SrcTool.log10fuel fuel n ≤ n ∧ n < 10 ^ (SrcTool.log10fuel fuel n + 1) := by
  intro fuel
  induction fuel with
  | zero => intro n h1 h2; omega
  | succ f ih =>
    intro n h1 h2
    by_cases h10 : n < 10
    · simp only [SrcTool.log10fuel, if_pos h10, pow_zero, pow_one]
      omega
    · have hm : 0 < n / 10 := Nat.div_pos (by omega) (by norm_num)
      have hle : n / 10 ≤ f := by omega
      obtain ⟨ihl, ihr⟩ := ih (n / 10) hm hle
      simp only [SrcTool.log10fuel, if_neg h10]
      constructor
      · have h3 : 10 ^ (SrcTool.log10fuel f (n / 10) + 1) =
            10 ^ SrcTool.log10fuel f (n / 10) * 10 := pow_succ 10 _
        have h4 : 10 ^ SrcTool.log10fuel f (n / 10) * 10 ≤ (n / 10) * 10 :=
          Nat.mul_le_mul_right 10 ihl
        have h5 : (n / 10) * 10 ≤ n := Nat.div_mul_le_self n 10
        omega
      · have h3 : 10 ^ (SrcTool.log10fuel f (n / 10) + 1 + 1) =
            10 ^ (SrcTool.log10fuel f (n / 10) + 1) * 10 := pow_succ 10 _
        have h4 : (n / 10 + 1) * 10 ≤ 10 ^ (SrcTool.log10fuel f (n / 10) + 1) * 10 :=
          Nat.mul_le_mul_right 10 ihr
        omega

/-- The natural base-10 logarithm brackets its argument. -/
theorem natLog10_bracket (n : Nat) (h : 0 < n) :
    10 ^ SrcTool.natLog10 n ≤ n ∧ n < 10 ^ (SrcTool.natLog10 n + 1) :=
  log10fuel_bracket n n h le_rfl

/-- Power bracketing of the floor in ℚ: the truncated floor of a value at
least one sits between the bracketing powers of its logarithm. -/
theorem floor_pow_bracket (a : ℚ) (h1 : 1 ≤ a) :
    (10 : ℚ) ^ SrcTool.natLog10 ⌊a⌋.toNat ≤ a ∧
      a < (10 : ℚ) ^ (SrcTool.natLog10 ⌊a⌋.toNat + 1) := by
  have hfl1 : (1 : ℤ) ≤ ⌊a⌋ := Int.le_floor.mpr (by exact_mod_cast h1)
  have hm0 : 0 < ⌊a⌋.toNat := by omega
  obtain ⟨bl, br⟩ := natLog10_bracket ⌊a⌋.toNat hm0
  have hmx : ((⌊a⌋.toNat : ℕ) : ℚ) ≤ a := by
    have h := Int.floor_le (α := ℚ) a
    have h2 : ((⌊a⌋.toNat : ℕ) : ℤ) = ⌊a⌋ := Int.toNat_of_nonneg (by omega)
    calc ((⌊a⌋.toNat : ℕ) : ℚ) = ((⌊a⌋ : ℤ) : ℚ) := by exact_mod_cast congrArg Int.cast h2
      _ ≤ a := h
  have hmx2 : a < ((⌊a⌋.toNat : ℕ) : ℚ) + 1 := by
    have h := Int.lt_floor_add_one a
    have h2 : ((⌊a⌋.toNat : ℕ) : ℤ) = ⌊a⌋ := Int.toNat_of_nonneg (by omega)
    calc a < ((⌊a⌋ : ℤ) : ℚ) + 1 := h
      _ = ((⌊a⌋.toNat : ℕ) : ℚ) + 1 := by
          rw [show ((⌊a⌋ : ℤ) : ℚ) = ((⌊a⌋.toNat : ℕ) : ℚ) by exact_mod_cast (congrArg Int.cast h2).symm]
  constructor
  · have hq : ((10 ^ SrcTool.natLog10 ⌊a⌋.toNat : ℕ) : ℚ) ≤ ((⌊a⌋.toNat : ℕ) : ℚ) := by
      exact_mod_cast bl
    push_cast at hq
    linarith
  · have hq : ((⌊a⌋.toNat : ℕ) : ℚ) + 1 ≤ ((10 ^ (SrcTool.natLog10 ⌊a⌋.toNat + 1) : ℕ) : ℚ) := by
      exact_mod_cast br
    push_cast at hq
    linarith

/-- Correctness of `floorLog10`: for nonzero input it is the floor of the
base-10 logarithm of the absolute value, witnessed by the power bracketing. -/
theorem floorLog10_bracket (x : ℚ) (hx : x ≠ 0) :
    (10 : ℚ) ^ SrcTool.floorLog10 x ≤ |x| ∧ |x| < (10 : ℚ) ^ (SrcTool.floorLog10 x + 1) := by
  have ha : 0 < |x| := abs_pos.mpr hx
  have ha0 : |x| ≠ 0 := ne_of_gt ha
  unfold SrcTool.floorLog10
  rw [if_neg ha0]
  by_cases h1 : 1 ≤ |x|
  · rw [if_pos h1]
    obtain ⟨bl, br⟩ := floor_pow_bracket |x| h1
    constructor
    · rw [zpow_natCast]
      exact bl
    · rw [show (SrcTool.natLog10 ⌊|x|⌋.toNat : ℤ) + 1 = ((SrcTool.natLog10 ⌊|x|⌋.toNat + 1 : ℕ) : ℤ) by push_cast; ring,
        zpow_natCast]
      exact br
  · rw [if_neg h1]
    push_neg at h1
    have hb1 : 1 ≤ |x|⁻¹ := le_of_lt (one_lt_inv_iff.mpr ⟨ha, h1⟩)
    obtain ⟨bl, br⟩ := floor_pow_bracket |x|⁻¹ hb1
    have hpw : (0 : ℚ) < (10 : ℚ) ^ SrcTool.natLog10 ⌊|x|⁻¹⌋.toNat := by positivity
    have hpw1 : (0 : ℚ) < (10 : ℚ) ^ (SrcTool.natLog10 ⌊|x|⁻¹⌋.toNat + 1) := by positivity
    by_cases hc : 1 ≤ |x| * (10 : ℚ) ^ SrcTool.natLog10 ⌊|x|⁻¹⌋.toNat
    · rw [if_pos hc]
      constructor
      · rw [zpow_neg, zpow_natCast]
        rw [inv_le_iff_one_le_mul₀ hpw]
        linarith [hc]
      · have hmul : |x| * (10 : ℚ) ^ SrcTool.natLog10 ⌊|x|⁻¹⌋.toNat ≤ 1 := by
          have h5 := mul_le_mul_of_nonneg_left bl (le_of_lt ha)
          rw [mul_inv_cancel₀ ha0] at h5
          exact h5
        have hxle : |x| ≤ ((10 : ℚ) ^ SrcTool.natLog10 ⌊|x|⁻¹⌋.toNat)⁻¹ := by
          rw [inv_eq_one_div, le_div_iff hpw]
          linarith
        have : (10 : ℚ) ^ (-(SrcTool.natLog10 ⌊|x|⁻¹⌋.toNat : ℤ) + 1) =
            ((10 : ℚ) ^ SrcTool.natLog10 ⌊|x|⁻¹⌋.toNat)⁻¹ * 10 := by
          rw [zpow_add₀ (by norm_num : (10 : ℚ) ≠ 0), zpow_neg, zpow_natCast, zpow_one]
        rw [this]
        nlinarith [hxle, hpw]
    · rw [if_neg hc]
      push_neg at hc
      constructor
      · have h2 : |x|⁻¹ < (10 : ℚ) ^ (SrcTool.natLog10 ⌊|x|⁻¹⌋.toNat + 1) := br
        have hmul : 1 < |x| * (10 : ℚ) ^ (SrcTool.natLog10 ⌊|x|⁻¹⌋.toNat + 1) := by
          have h5 := mul_lt_mul_of_pos_left h2 ha
          rw [mul_inv_cancel₀ ha0] at h5
          exact h5
        have h3 : ((10 : ℚ) ^ (SrcTool.natLog10 ⌊|x|⁻¹⌋.toNat + 1))⁻¹ < |x| := by
          rw [inv_eq_one_div, div_lt_iff hpw1]
          linarith
        have h4 : (10 : ℚ) ^ (-(SrcTool.natLog10 ⌊|x|⁻¹⌋.toNat : ℤ) - 1) =
            ((10 : ℚ) ^ (SrcTool.natLog10 ⌊|x|⁻¹⌋.toNat + 1))⁻¹ := by
          rw [← zpow_natCast (10 : ℚ) (SrcTool.natLog10 ⌊|x|⁻¹⌋.toNat + 1), ← zpow_neg]
          congr 1
          push_cast
          ring
        rw [h4]
        linarith
      · have h4 : (10 : ℚ) ^ (-(SrcTool.natLog10 ⌊|x|⁻¹⌋.toNat : ℤ) - 1 + 1) =
            ((10 : ℚ) ^ SrcTool.natLog10 ⌊|x|⁻¹⌋.toNat)⁻¹ := by
          rw [← zpow_natCast (10 : ℚ) (SrcTool.natLog10 ⌊|x|⁻¹⌋.toNat), ← zpow_neg]
          congr 1
          push_cast
          ring
        rw [h4, inv_eq_one_div, lt_div_iff hpw]
        linarith

/-- Concrete magnitude: 0.00012345 has floor log10 equal to minus four. -/
theorem floorLog10_small : SrcTool.floorLog10 (12345 / 100000000) = -4 := by
  have habs : |((12345 : ℚ) / 100000000)| = 12345 / 100000000 := abs_of_pos (by norm_num)
  have hinv : ((12345 : ℚ) / 100000000)⁻¹ = 100000000 / 12345 := inv_div _ _
  have hfl : ⌊(100000000 : ℚ) / 12345⌋ = 8100 := by
    rw [show ((100000000 : ℚ) / 12345) = (((100000000 : ℕ) : ℚ) / ((12345 : ℕ) : ℚ)) by norm_num,
      Rat.floor_natCast_div_natCast]
    norm_num
  have hlog : SrcTool.natLog10 (8100 : ℤ).toNat = 3 := by decide
  simp only [SrcTool.floorLog10, habs, hinv, hfl, hlog]
  norm_num

/-- Concrete magnitude: 1234.5678 has floor log10 equal to three. -/
theorem floorLog10_large : SrcTool.floorLog10 (12345678 / 10000) = 3 := by
  have habs : |((12345678 : ℚ) / 10000)| = 12345678 / 10000 := abs_of_pos (by norm_num)
  have hfl : ⌊(12345678 : ℚ) / 10000⌋ = 1234 := by
    rw [show ((12345678 : ℚ) / 10000) = (((12345678 : ℕ) : ℚ) / ((10000 : ℕ) : ℚ)) by norm_num,
      Rat.floor_natCast_div_natCast]
    norm_num
  have hlog : SrcTool.natLog10 (1234 : ℤ).toNat = 3 := by decide
  simp only [SrcTool.floorLog10, habs, hfl, hlog]
  norm_num

/-- Claim C9: the smart-rounding function maps zero to zero; for nonzero x
it rounds to a decimal count determined by the floor of log10 of the
absolute value (witnessed by the power bracketing) clamped into [2, 6]; the
sub-cent example 0.00012345 keeps its leading significant digits (six
decimals, a nonzero result) and 1234.5678 is cut to the clamped three
decimals. -/
theorem smart_round_spec :
    SrcTool.smart_round 0 = 0 ∧
    (∀ x : ℚ, x ≠ 0 →
      ((10 : ℚ) ^ SrcTool.floorLog10 x ≤ |x| ∧ |x| < (10 : ℚ) ^ (SrcTool.floorLog10 x + 1)) ∧
      2 ≤ max 2 (min 6 (6 - max (-6) (min 6 (SrcTool.floorLog10 x)))) ∧
      max 2 (min 6 (6 - max (-6) (min 6 (SrcTool.floorLog10 x)))) ≤ 6 ∧
      SrcTool.smart_round x =
        SrcTool.roundToDec (max 2 (min 6 (6 - max (-6) (min 6 (SrcTool.floorLog10 x))))).toNat x) ∧
    SrcTool.smart_round (12345 / 100000000) = 123 / 1000000 ∧
    ((123 : ℚ) / 1000000 ≠ 0) ∧
    SrcTool.smart_round (12345678 / 10000) = 1234568 / 1000 := by
  refine ⟨by simp [SrcTool.smart_round], fun x hx => ⟨floorLog10_bracket x hx, by omega, by omega, ?_⟩, ?_, by norm_num, ?_⟩
  · simp [SrcTool.smart_round, hx]
  · have hx0 : ((12345 : ℚ) / 100000000) ≠ 0 := by norm_num
    have hd : (max 2 (min 6 (6 - max (-6) (min 6 (-4 : ℤ))))).toNat = 6 := by decide
    have h1 : (12345 : ℚ) / 100000000 * 10 ^ (6 : ℕ) + 1 / 2 = 12395 / 100 := by norm_num
    have h2 : ⌊(12395 : ℚ) / 100⌋ = 123 := by
      rw [show ((12395 : ℚ) / 100) = (((12395 : ℕ) : ℚ) / ((100 : ℕ) : ℚ)) by norm_num,
        Rat.floor_natCast_div_natCast]
      norm_num
    simp only [SrcTool.smart_round, if_neg hx0, floorLog10_small, SrcTool.roundToDec, hd]
    rw [h1, h2]
    norm_num
  · have hx0 : ((12345678 : ℚ) / 10000) ≠ 0 := by norm_num
    have hd : (max 2 (min 6 (6 - max (-6) (min 6 (3 : ℤ))))).toNat = 3 := by decide
    have h1 : (12345678 : ℚ) / 10000 * 10 ^ (3 : ℕ) + 1 / 2 = 12345683 / 10 := by norm_num
    have h2 : ⌊(12345683 : ℚ) / 10⌋ = 1234568 := by
      rw [show ((12345683 : ℚ) / 10) = (((12345683 : ℕ) : ℚ) / ((10 : ℕ) : ℚ)) by norm_num,
        Rat.floor_natCast_div_natCast]
      norm_num
    simp only [SrcTool.smart_round, if_neg hx0, floorLog10_large, SrcTool.roundToDec, hd]
    rw [h1, h2]
    norm_num

/-- Claim C9 (witness): the general conjunct applied at the nonzero input 5:
its magnitude brackets and its rounding equation. -/
theorem smart_round_spec_witness :
    ((10 : ℚ) ^ SrcTool.floorLog10 5 ≤ |(5 : ℚ)| ∧
      |(5 : ℚ)| < (10 : ℚ) ^ (SrcTool.floorLog10 5 + 1)) ∧
    SrcTool.smart_round 5 =
      SrcTool.roundToDec (max 2 (min 6 (6 - max (-6) (min 6 (SrcTool.floorLog10 5))))).toNat 5 :=
  ⟨(smart_round_spec.2.1 5 (by norm_num)).1, (smart_round_spec.2.1 5 (by norm_num)).2.2.2⟩

/-- Lookup of the key just inserted at the front of an association list. -/
theorem lookup_cons_self {β : Type} (k : String) (v : β) (l : List (String × β)) :
    ((k, v) :: l).lookup k = some v := by
  simp [List.lookup]

/-- Lookup past a front entry with a different key. -/
theorem lookup_cons_ne {β : Type} {k k' : String} (v : β) (l : List (String × β))
    (h : k' ≠ k) : ((k, v) :: l).lookup k' = l.lookup k' := by
  simp [List.lookup, beq_eq_false_iff_ne.mpr h]

/-- Replay lemma for `get_btc_rate`: a first call from a state with empty
logs, followed by a second call at a later instant at which every key the
first call read is cached fresh, repeats the first answer with no further
network fetch, and the first call fetched each key at most once. -/
theorem get_btc_rate_replay (w : UtilsTool.UWorld) (ttl t0 t1 : Nat)
    (cf : List (String × (Nat × List (String × ℚ)))) (cc : List (String × (Nat × ℚ)))
    (v : String) (r : Except String ℚ) (st1 : UtilsTool.UState)
    (h01 : t0 ≤ t1)
    (h1 : UtilsTool.get_btc_rate w ttl t0 ⟨cf, cc, [], [], [], []⟩ v = (r, st1))
    (hc : ∀ k ∈ st1.cryptoReads, ∃ ts p, st1.cryptoCache.lookup k = some (ts, p) ∧ t1 - ts < ttl) :
    (UtilsTool.get_btc_rate w ttl t1 st1 v).1 = r ∧
    (UtilsTool.get_btc_rate w ttl t1 st1 v).2.cryptoFetches = st1.cryptoFetches ∧
    (UtilsTool.get_btc_rate w ttl t1 st1 v).2.fiatFetches = st1.fiatFetches ∧
    st1.cryptoFetches.Nodup ∧ st1.fiatFetches.Nodup := by
  unfold UtilsTool.get_btc_rate at h1 ⊢
  simp only at h1 ⊢
  rcases hl : cc.lookup ("bitcoin|" ++ lowStr (upStr v)) with _ | ⟨ts, p⟩
  · rw [hl] at h1
    rcases hw : w.btcPrice (lowStr (upStr v)) with _ | p'
    · rw [hw] at h1
      simp only at h1
      injection h1 with hr hst
      subst hr hst
      exfalso
      obtain ⟨ts', p', hl', _⟩ := hc ("bitcoin|" ++ lowStr (upStr v)) (by simp)
      simp only at hl'
      rw [hl] at hl'
      exact Option.noConfusion hl'
    · rw [hw] at h1
      simp only at h1
      injection h1 with hr hst
      subst hr hst
      obtain ⟨ts', p'', hl', hfr⟩ := hc ("bitcoin|" ++ lowStr (upStr v)) (by simp)
      simp only [lookup_cons_self, Option.some.injEq, Prod.mk.injEq] at hl'
      obtain ⟨h2, h3⟩ := hl'
      subst h2 h3
      simp [lookup_cons_self, hfr]
  · rw [hl] at h1
    simp only at h1
    by_cases hfr0 : t0 - ts < ttl
    · rw [if_pos hfr0] at h1
      injection h1 with hr hst
      subst hr hst
      obtain ⟨ts', p'', hl', hfr⟩ := hc ("bitcoin|" ++ lowStr (upStr v)) (by simp)
      simp only [hl, Option.some.injEq, Prod.mk.injEq] at hl'
      obtain ⟨h2, h3⟩ := hl'
      subst h2 h3
      simp [hl, hfr]
    · rw [if_neg hfr0] at h1
      rcases hw : w.btcPrice (lowStr (upStr v)) with _ | p'
      · rw [hw] at h1
        simp only at h1
        injection h1 with hr hst
        subst hr hst
        exfalso
        obtain ⟨ts', p'', hl', hfr⟩ := hc ("bitcoin|" ++ lowStr (upStr v)) (by simp)
        simp only at hl'
        rw [hl] at hl'
        simp only [Option.some.injEq, Prod.mk.injEq] at hl'
        obtain ⟨h2, _⟩ := hl'
        subst h2
        omega
      · rw [hw] at h1
        simp only at h1
        injection h1 with hr hst
        subst hr hst
        obtain ⟨ts', p'', hl', hfr⟩ := hc ("bitcoin|" ++ lowStr (upStr v)) (by simp)
        simp only [lookup_cons_self, Option.some.injEq, Prod.mk.injEq] at hl'
        obtain ⟨h2, h3⟩ := hl'
        subst h2 h3
        simp [lookup_cons_self, hfr]

/-- Cache-hit behaviour of `_fetch_fiat_rates`: a fresh entry is answered
from the cache, the only state change being the recorded read. -/
theorem fetchFiatRates_hit (w : UtilsTool.UWorld) (ttl now : Nat) (st : UtilsTool.UState)
    (b : String) (ts : Nat) (tbl : List (String × ℚ))
    (h : st.fiatCache.lookup (upStr b) = some (ts, tbl)) (hfr : now - ts < ttl) :
    UtilsTool.fetchFiatRates w ttl now st b =
      (tbl, { st with fiatReads := st.fiatReads ++ [upStr b] }) := by
  unfold UtilsTool.fetchFiatRates
  simp only [h, if_pos hfr]

/-- Case characterisation of `_fetch_fiat_rates`: the call either answers a
fresh cache entry unchanged, or fetches the world table, logs the fetch and
overwrites the slot; in both cases the key is recorded as read and the
returned table is cached under the key afterwards. -/
theorem fetchFiatRates_cases (w : UtilsTool.UWorld) (ttl now : Nat) (st : UtilsTool.UState)
    (b : String) :
    ∃ rates st', UtilsTool.fetchFiatRates w ttl now st b = (rates, st') ∧
      st'.fiatReads = st.fiatReads ++ [upStr b] ∧
      st'.cryptoReads = st.cryptoReads ∧ st'.cryptoCache = st.cryptoCache ∧
      st'.cryptoFetches = st.cryptoFetches ∧
      (∃ ts', st'.fiatCache.lookup (upStr b) = some (ts', rates)) ∧
      ((st'.fiatFetches = st.fiatFetches ∧ st'.fiatCache = st.fiatCache ∧
          ∃ ts tbl, st.fiatCache.lookup (upStr b) = some (ts, tbl) ∧ now - ts < ttl ∧ rates = tbl) ∨
        (st'.fiatFetches = st.fiatFetches ++ [upStr b] ∧
          st'.fiatCache = (upStr b, (now, rates)) :: st.fiatCache ∧
          rates = w.fiatTables (upStr b) ∧
          (∀ ts tbl, st.fiatCache.lookup (upStr b) = some (ts, tbl) → ¬ (now - ts < ttl)))) := by
  unfold UtilsTool.fetchFiatRates
  simp only
  rcases hl : st.fiatCache.lookup (upStr b) with _ | ⟨ts, tbl⟩
  · simp only [hl]
    refine ⟨w.fiatTables (upStr b), _, rfl, by simp, by simp, by simp, by simp,
      ⟨now, by simp [lookup_cons_self]⟩, .inr ⟨by simp, by simp, rfl, ?_⟩⟩
    intro ts tbl h
    exact Option.noConfusion h
  · simp only [hl]
    by_cases hfr : now - ts < ttl
    · rw [if_pos hfr]
      refine ⟨tbl, _, rfl, by simp, by simp, by simp, by simp,
        ⟨ts, by simpa using hl⟩, .inl ⟨by simp, by simp, ts, tbl, rfl, hfr, rfl⟩⟩
    · rw [if_neg hfr]
      refine ⟨w.fiatTables (upStr b), _, rfl, by simp, by simp, by simp, by simp,
        ⟨now, by simp [lookup_cons_self]⟩, .inr ⟨by simp, by simp, rfl, ?_⟩⟩
      intro ts' tbl' h
      injection h with h2
      injection h2 with h3 h4
      subst h3
      exact hfr

/-- Replay lemma for `get_fiat_rate`: a first call from a state with empty
logs, followed by a second call at a later instant at which every key the
first call read is cached fresh, repeats the first answer with no further
network fetch, and the first call fetched each key at most once. -/
theorem get_fiat_rate_replay (w : UtilsTool.UWorld) (ttl t0 t1 : Nat)
    (cf : List (String × (Nat × List (String × ℚ)))) (cc : List (String × (Nat × ℚ)))
    (base target : String) (r : Except String ℚ) (st1 : UtilsTool.UState)
    (h1 : UtilsTool.get_fiat_rate w ttl t0 ⟨cf, cc, [], [], [], []⟩ base target = (r, st1))
    (hf : ∀ b ∈ st1.fiatReads, ∃ ts tbl, st1.fiatCache.lookup b = some (ts, tbl) ∧ t1 - ts < ttl) :
    (UtilsTool.get_fiat_rate w ttl t1 st1 base target).1 = r ∧
    (UtilsTool.get_fiat_rate w ttl t1 st1 base target).2.fiatFetches = st1.fiatFetches ∧
    (UtilsTool.get_fiat_rate w ttl t1 st1 base target).2.cryptoFetches = st1.cryptoFetches ∧
    st1.fiatFetches.Nodup ∧ st1.cryptoFetches.Nodup := by
  unfold UtilsTool.get_fiat_rate at h1 ⊢
  simp only at h1 ⊢
  by_cases hbt : upStr base = upStr target
  · rw [if_pos hbt] at h1
    injection h1 with hr hst
    subst hr hst
    rw [if_pos hbt]
    simp
  · rw [if_neg hbt] at h1
    rw [if_neg hbt]
    obtain ⟨rates, stA, hF1, hRd, hCr, hCc, hCf, ⟨tsA, hlook⟩, hcase1⟩ :=
      fetchFiatRates_cases w ttl t0 ⟨cf, cc, [], [], [], []⟩ (upStr base)
    rw [hF1] at h1
    simp only at h1
    rcases hlt : rates.lookup (upStr target) with _ | r0
    · rw [hlt] at h1
      rcases hlu : rates.lookup "USD" with _ | u
      · rw [hlu] at h1
        injection h1 with hr hst
        subst hr hst
        obtain ⟨ts', tbl', hlook', hfr'⟩ := hf (upStr (upStr base)) (by rw [hRd]; simp)
        rw [hlook] at hlook'
        injection hlook' with h2
        injection h2 with h3 h4
        subst h3 h4
        rw [fetchFiatRates_hit w ttl t1 stA (upStr base) tsA rates hlook hfr']
        simp only [hlt, hlu]
        refine ⟨by simp, by simp, by simp, ?_, by simp [hCf]⟩
        rcases hcase1 with ⟨hf1, _, _⟩ | ⟨hf1, _, _, _⟩ <;> simp [hf1]
      · rw [hlu] at h1
        obtain ⟨ratesU, stB, hF2, hRd2, hCr2, hCc2, hCf2, ⟨tsB, hlook2⟩, hcase2⟩ :=
          fetchFiatRates_cases w ttl t0 stA "USD"
        rw [hF2] at h1
        simp only at h1
        obtain ⟨hr, hst⟩ : (r = match ratesU.lookup (upStr target) with
            | some r2 => Except.ok (u * r2)
            | none => Except.error ("Unsupported target currency: " ++ upStr target)) ∧
            st1 = stB := by
          rcases hlt2 : ratesU.lookup (upStr target) with _ | r2 <;>
            rw [hlt2] at h1 <;> simp only [hlt2] <;> simp only at h1 <;>
            exact ⟨((Prod.mk.injEq ..).mp h1).1.symm, ((Prod.mk.injEq ..).mp h1).2.symm⟩
        subst hst
        have hKmem : upStr (upStr base) ∈ st1.fiatReads := by rw [hRd2, hRd]; simp
        have hUmem : upStr "USD" ∈ st1.fiatReads := by rw [hRd2]; simp
        have hlookB : st1.fiatCache.lookup (upStr (upStr base)) = some (tsA, rates) := by
          rcases hcase2 with ⟨hf2, hc2, _⟩ | ⟨hf2, hc2, hwU, hstale2⟩
          · rw [hc2]
            exact hlook
          · by_cases hKU : upStr (upStr base) = upStr "USD"
            · exfalso
              have hstale := hstale2 tsA rates (by rw [← hKU]; exact hlook)
              obtain ⟨tsf, tblf, hlf, hfrf⟩ := hf (upStr "USD") hUmem
              have httl : 0 < ttl := by omega
              rcases hcase1 with ⟨_, hcA, tsX, tblX, hlX, hfrX, hrX⟩ | ⟨_, hcA, hrX, hstaleX⟩
              · rw [hcA] at hlook
                rw [hlook] at hlX
                injection hlX with h2
                injection h2 with h3 h4
                subst h3
                exact hstale hfrX
              · rw [hcA, lookup_cons_self] at hlook
                injection hlook with h2
                injection h2 with h3 h4
                subst h3
                omega
            · rw [hc2, lookup_cons_ne _ _ hKU]
              exact hlook
        have hlookUB : st1.fiatCache.lookup (upStr "USD") = some (tsB, ratesU) := hlook2
        obtain ⟨tsf, tblf, hlf, hfrK⟩ := hf (upStr (upStr base)) hKmem
        rw [hlookB] at hlf
        injection hlf with h2
        injection h2 with h3 h4
        subst h3 h4
        obtain ⟨tsg, tblg, hlg, hfrU⟩ := hf (upStr "USD") hUmem
        rw [hlookUB] at hlg
        injection hlg with h2
        injection h2 with h3 h4
        subst h3 h4
        rw [fetchFiatRates_hit w ttl t1 st1 (upStr base) tsA rates hlookB hfrK]
        simp only [hlt, hlu]
        rw [fetchFiatRates_hit w ttl t1 _ "USD" tsB ratesU (by simpa using hlookUB) hfrU]
        refine ⟨?_, ?_, ?_, ?_, ?_⟩
        · rcases hlt2 : ratesU.lookup (upStr target) with _ | r2 <;>
            simp only [hlt2] at hr ⊢ <;> simp [hr]
        · rcases hlt2 : ratesU.lookup (upStr target) with _ | r2 <;> simp [hlt2]
        · rcases hlt2 : ratesU.lookup (upStr target) with _ | r2 <;> simp [hlt2]
        · rcases hcase2 with ⟨hf2, _, _⟩ | ⟨hf2, hc2, hwU, hstale2⟩
          · rcases hcase1 with ⟨hf1, _, _⟩ | ⟨hf1, _, _, _⟩ <;> simp [hf2, hf1]
          · have hKU : ¬ upStr (upStr base) = upStr "USD" := by
              intro hKU
              have hstale := hstale2 tsA rates (by rw [← hKU]; exact hlook)
              rcases hcase1 with ⟨_, hcA, tsX, tblX, hlX, hfrX, hrX⟩ | ⟨_, hcA, hrX, hstaleX⟩
              · rw [hcA] at hlook
                rw [hlook] at hlX
                injection hlX with h2
                injection h2 with h3 h4
                subst h3
                exact hstale hfrX
              · rw [hcA, lookup_cons_self] at hlook
                injection hlook with h2
                injection h2 with h3 h4
                subst h3
                omega
            rcases hcase1 with ⟨hf1, _, _⟩ | ⟨hf1, _, _, _⟩ <;>
              simp [hf2, hf1, List.Nodup, hKU]
        · simp [hCf2, hCf]
    · rw [hlt] at h1
      injection h1 with hr hst
      subst hr hst
      obtain ⟨ts', tbl', hlook', hfr'⟩ := hf (upStr (upStr base)) (by rw [hRd]; simp)
      rw [hlook] at hlook'
      injection hlook' with h2
      injection h2 with h3 h4
      subst h3 h4
      rw [fetchFiatRates_hit w ttl t1 stA (upStr base) tsA rates hlook hfr']
      simp only [hlt]
      refine ⟨by simp, by simp, by simp, ?_, by simp [hCf]⟩
      rcases hcase1 with ⟨hf1, _, _⟩ | ⟨hf1, _, _, _⟩ <;> simp [hf1]

/-- Claim C2 (amended): TTL-cache idempotence, stated for the `CurrencyTool`
gateway. First conjunct: a `convert` call from a state with arbitrary cache
contents and empty instrumentation logs, replayed later with identical
inputs while every cache key the first call touched is still fresh, answers
the same result with zero further network fetches, and the first call
fetched each distinct key at most once. Second and third conjuncts: once
the TTL of an entry has elapsed, the next read of that key performs a new
fetch and overwrites the slot with the freshly fetched value at the current
instant (fiat table and crypto price caches respectively). Fourth conjunct:
the keyed src/src module has no cache — every keyed fiat-pair resolution
performs exactly one GET, so a repeated identical call repeats the fetch. -/
theorem convert_cache_idempotence :
    (∀ (w : UtilsTool.UWorld) (ttl t0 t1 : Nat) cf cc (a : ℚ) (fc tc : String)
      (r : Except String (ℚ × ℚ × String)) (st1 : UtilsTool.UState),
      t0 ≤ t1 →
      UtilsTool.convert w ttl t0 ⟨cf, cc, [], [], [], []⟩ a fc tc = (r, st1) →
      (∀ b ∈ st1.fiatReads, ∃ ts tbl, st1.fiatCache.lookup b = some (ts, tbl) ∧ t1 - ts < ttl) →
      (∀ k ∈ st1.cryptoReads, ∃ ts p, st1.cryptoCache.lookup k = some (ts, p) ∧ t1 - ts < ttl) →
      (UtilsTool.convert w ttl t1 st1 a fc tc).1 = r ∧
      (UtilsTool.convert w ttl t1 st1 a fc tc).2.fiatFetches = st1.fiatFetches ∧
      (UtilsTool.convert w ttl t1 st1 a fc tc).2.cryptoFetches = st1.cryptoFetches ∧
      st1.fiatFetches.Nodup ∧ st1.cryptoFetches.Nodup) ∧
    (∀ (w : UtilsTool.UWorld) (ttl now : Nat) (st : UtilsTool.UState) (b : String)
      (ts : Nat) (tbl : List (String × ℚ)),
      st.fiatCache.lookup (upStr b) = some (ts, tbl) → ¬ (now - ts < ttl) →
      (UtilsTool.fetchFiatRates w ttl now st b).1 = w.fiatTables (upStr b) ∧
      (UtilsTool.fetchFiatRates w ttl now st b).2.fiatFetches = st.fiatFetches ++ [upStr b] ∧
      (UtilsTool.fetchFiatRates w ttl now st b).2.fiatCache.lookup (upStr b) =
        some (now, w.fiatTables (upStr b))) ∧
    (∀ (w : UtilsTool.UWorld) (ttl now : Nat) (st : UtilsTool.UState) (v : String)
      (ts : Nat) (p price : ℚ),
      st.cryptoCache.lookup ("bitcoin|" ++ lowStr (upStr v)) = some (ts, p) →
      ¬ (now - ts < ttl) → w.btcPrice (lowStr (upStr v)) = some price →
      (UtilsTool.get_btc_rate w ttl now st v).1 = .ok price ∧
      (UtilsTool.get_btc_rate w ttl now st v).2.cryptoFetches =
        st.cryptoFetches ++ ["bitcoin|" ++ lowStr (upStr v)] ∧
      (UtilsTool.get_btc_rate w ttl now st v).2.cryptoCache.lookup
        ("bitcoin|" ++ lowStr (upStr v)) = some (now, price)) ∧
    (∀ (key : String) (w : SrcTool.SWorld) (src dst : String), key ≠ "" → src ≠ dst →
      (SrcTool.fetch_fiat_rate key w src dst).2 = ["GET pair/" ++ src ++ "/" ++ dst]) := by
  refine ⟨?_, ?_, ?_, ?_⟩
  · intro w ttl t0 t1 cf cc a fc tc r st1 h01 h1 hfA hcA
    unfold UtilsTool.convert at h1 ⊢
    rcases hnf : UtilsTool.normalize_code fc with _ | f
    · rw [hnf] at h1
      simp only at h1
      injection h1 with hr hst
      subst hr hst
      simp [hnf]
    · rw [hnf] at h1
      rcases hnt : UtilsTool.normalize_code tc with _ | t
      · rw [hnt] at h1
        simp only at h1
        injection h1 with hr hst
        subst hr hst
        simp [hnf, hnt]
      · rw [hnt] at h1
        simp only at h1 ⊢
        by_cases hfb : f = "BTC" <;> by_cases htb : t = "BTC"
        · simp only [hfb, htb] at h1 ⊢
          rw [if_neg (by simp), if_neg (by simp), if_pos (by simp)] at h1
          rw [if_neg (by simp), if_neg (by simp), if_pos (by simp)]
          injection h1 with hr hst
          subst hr hst
          simp
        · simp only [hfb] at h1 ⊢
          rw [if_pos (by simp [htb])] at h1
          rw [if_pos (by simp [htb])]
          rcases hg : UtilsTool.get_btc_rate w ttl t0 ⟨cf, cc, [], [], [], []⟩ t with ⟨rg, stg⟩
          rw [hg] at h1
          have hst1 : st1 = stg := by
            rcases rg with e | p <;> simp only at h1 <;>
              exact ((Prod.mk.injEq ..).mp h1).2.symm
          subst hst1
          obtain ⟨hr1, hr2, hr3, hn1, hn2⟩ :=
            get_btc_rate_replay w ttl t0 t1 cf cc t rg st1 h01 hg hcA
          rcases hg2 : UtilsTool.get_btc_rate w ttl t1 st1 t with ⟨rg2, stg2⟩
          rw [hg2] at hr1 hr2 hr3
          simp only at hr1 hr2 hr3
          subst hr1
          rcases rg2 with e | p <;> simp only at h1 ⊢ <;>
            exact ⟨((Prod.mk.injEq ..).mp h1).1, hr3, hr2, hn2, hn1⟩
        · simp only [htb] at h1 ⊢
          rw [if_neg (by simp [hfb]), if_pos (by simp [hfb])] at h1
          rw [if_neg (by simp [hfb]), if_pos (by simp [hfb])]
          rcases hg : UtilsTool.get_btc_rate w ttl t0 ⟨cf, cc, [], [], [], []⟩ f with ⟨rg, stg⟩
          rw [hg] at h1
          have hst1 : st1 = stg := by
            rcases rg with e | p <;> simp only at h1 <;>
              exact ((Prod.mk.injEq ..).mp h1).2.symm
          subst hst1
          obtain ⟨hr1, hr2, hr3, hn1, hn2⟩ :=
            get_btc_rate_replay w ttl t0 t1 cf cc f rg st1 h01 hg hcA
          rcases hg2 : UtilsTool.get_btc_rate w ttl t1 st1 f with ⟨rg2, stg2⟩
          rw [hg2] at hr1 hr2 hr3
          simp only at hr1 hr2 hr3
          subst hr1
          rcases rg2 with e | p <;> simp only at h1 ⊢ <;>
            exact ⟨((Prod.mk.injEq ..).mp h1).1, hr3, hr2, hn2, hn1⟩
        · rw [if_neg (by simp [hfb]), if_neg (by simp [htb]), if_neg (by simp [hfb])] at h1
          rw [if_neg (by simp [hfb]), if_neg (by simp [htb]), if_neg (by simp [hfb])]
          rcases hg : UtilsTool.get_fiat_rate w ttl t0 ⟨cf, cc, [], [], [], []⟩ f t with ⟨rg, stg⟩
          rw [hg] at h1
          have hst1 : st1 = stg := by
            rcases rg with e | p <;> simp only at h1 <;>
              exact ((Prod.mk.injEq ..).mp h1).2.symm
          subst hst1
          obtain ⟨hr1, hr2, hr3, hn1, hn2⟩ :=
            get_fiat_rate_replay w ttl t0 t1 cf cc f t rg st1 hg hfA
          rcases hg2 : UtilsTool.get_fiat_rate w ttl t1 st1 f t with ⟨rg2, stg2⟩
          rw [hg2] at hr1 hr2 hr3
          simp only at hr1 hr2 hr3
          subst hr1
          rcases rg2 with e | p <;> simp only at h1 ⊢ <;>
            exact ⟨((Prod.mk.injEq ..).mp h1).1, hr2, hr3, hn1, hn2⟩
  · intro w ttl now st b ts tbl hl hstale
    unfold UtilsTool.fetchFiatRates
    simp only [hl, if_neg hstale]
    refine ⟨by simp, by simp, by simp [lookup_cons_self]⟩
  · intro w ttl now st v ts p price hl hstale hw
    unfold UtilsTool.get_btc_rate
    simp only [hl, if_neg hstale, hw]
    refine ⟨by simp, by simp, by simp [lookup_cons_self]⟩
  · intro key w src dst hk hsd
    unfold SrcTool.fetch_fiat_rate
    rw [if_neg hk, if_neg hsd]
    rcases w.pairRate src dst <;> simp

/-- Claim C2 (counterexample): the keyed src/src module performs a network
GET on every identical call — it has no cache, so the second of two
identical conversions does not perform zero fetches, and the same pair key
is fetched twice across the two calls. -/
theorem perform_conversion_refetch_cex :
    (SrcTool.perform_conversion "k" Wex (some 1) "USD" "EUR").2 = ["GET pair/USD/EUR"] ∧
    (SrcTool.perform_conversion "k" Wex (some 1) "USD" "EUR").2 ++
      (SrcTool.perform_conversion "k" Wex (some 1) "USD" "EUR").2 =
      ["GET pair/USD/EUR", "GET pair/USD/EUR"] ∧
    ¬ (["GET pair/USD/EUR", "GET pair/USD/EUR"] : List String).Nodup :=
  ⟨by decide, by decide, by decide⟩

/-- Claim C2 (witness): the idempotence conjunct applied to a concrete
triangulated conversion EUR to THB: the second call 100 seconds later
repeats the answer with no further fetches, and the first call fetched the
two distinct keys once each. -/
theorem convert_cache_idempotence_witness :
    (UtilsTool.convert WexU 300 100
        ⟨[("USD", (0, [("EUR", 3), ("THB", 37)])), ("EUR", (0, [("USD", 2)]))], [],
          ["EUR", "USD"], [], ["EUR", "USD"], []⟩ 1 "EUR" "THB").1 =
      .ok (1 * (2 * 37), 2 * 37, "exchangerate.host") ∧
    (UtilsTool.convert WexU 300 100
        ⟨[("USD", (0, [("EUR", 3), ("THB", 37)])), ("EUR", (0, [("USD", 2)]))], [],
          ["EUR", "USD"], [], ["EUR", "USD"], []⟩ 1 "EUR" "THB").2.fiatFetches =
      ["EUR", "USD"] ∧
    (["EUR", "USD"] : List String).Nodup := by
  have h := convert_cache_idempotence.1 WexU 300 0 100 [] [] 1 "EUR" "THB"
    (.ok (1 * (2 * 37), 2 * 37, "exchangerate.host"))
    ⟨[("USD", (0, [("EUR", 3), ("THB", 37)])), ("EUR", (0, [("USD", 2)]))], [],
      ["EUR", "USD"], [], ["EUR", "USD"], []⟩
    (by norm_num) rfl
    (by
      intro b hb
      simp only [List.mem_cons, List.not_mem_nil, or_false] at hb
      rcases hb with rfl | rfl
      · exact ⟨0, [("USD", 2)], by decide, by norm_num⟩
      · exact ⟨0, [("EUR", 3), ("THB", 37)], by decide, by norm_num⟩)
    (by intro k hk; simp at hk)
  exact ⟨h.1, h.2.1, h.2.2.2.1⟩

/-- Round trip of `Char.ofNat` on small codepoints. -/
theorem toNat_ofNat_small {n : Nat} (h : n < 55296) : (Char.ofNat n).toNat = n := by
  have hv : n.isValidChar := Or.inl h
  unfold Char.ofNat
  rw [dif_pos hv]
  rfl

/-- Characters with equal codepoints are equal. -/
theorem char_ext {c d : Char} (h : c.toNat = d.toNat) : c = d := by
  apply Char.eq_of_val_eq
  exact UInt32.toNat.inj h

/-- Lower-casing maps a letter into the lower-case code range. -/
theorem lowCh_alpha_range {c : Char} (h : isAlphaCh c = true) :
    97 ≤ (lowCh c).toNat ∧ (lowCh c).toNat ≤ 122 := by
  simp only [isAlphaCh, Bool.or_eq_true, Bool.and_eq_true, decide_eq_true_eq] at h
  unfold lowCh
  split
  · next hc => rw [toNat_ofNat_small (by omega)]; omega
  · next hc => omega

/-- Upper-casing after lower-casing agrees with upper-casing, on letters. -/
theorem upCh_lowCh {c : Char} (h : isAlphaCh c = true) : upCh (lowCh c) = upCh c := by
  have h' := h
  simp only [isAlphaCh, Bool.or_eq_true, Bool.and_eq_true, decide_eq_true_eq] at h'
  apply char_ext
  unfold lowCh upCh
  split
  · next hc =>
    have ht32 : (Char.ofNat (c.toNat + 32)).toNat = c.toNat + 32 :=
      toNat_ofNat_small (by omega)
    rw [if_pos (by rw [ht32]; omega), if_neg (by omega), ht32,
      toNat_ofNat_small (by omega)]
    omega
  · rfl

/-- A letter never literally equals a non-letter character. -/
theorem alpha_beq_nonalpha {c d : Char} (h : isAlphaCh c = true) (hd : isAlphaCh d = false) :
    (c == d) = false := by
  apply beq_eq_false_iff_ne.mpr
  intro he
  rw [he] at h
  rw [h] at hd
  exact Bool.noConfusion hd

/-- The lower-cased image of a letter never equals a character outside the
lower-case code range. -/
theorem lowCh_beq_false {c : Char} (d : Char) (h : isAlphaCh c = true)
    (hd : ¬ (97 ≤ d.toNat ∧ d.toNat ≤ 122)) : (lowCh c == d) = false := by
  have hr := lowCh_alpha_range h
  apply beq_eq_false_iff_ne.mpr
  intro he
  rw [he] at hr
  exact hd hr

/-- The lower-cased image of a letter is a letter. -/
theorem isAlphaCh_lowCh {c : Char} (h : isAlphaCh c = true) : isAlphaCh (lowCh c) = true := by
  have hr := lowCh_alpha_range h
  simp only [isAlphaCh, Bool.or_eq_true, Bool.and_eq_true, decide_eq_true_eq]
  omega

/-- The lower-cased image of a letter is not a currency glyph. -/
theorem isSymCh_lowCh {c : Char} (h : isAlphaCh c = true) : SrcTool.isSymCh (lowCh c) = false := by
  have hr := lowCh_alpha_range h
  simp only [SrcTool.isSymCh, Bool.or_eq_false_iff]
  refine ⟨⟨⟨⟨⟨⟨⟨?_, ?_⟩, ?_⟩, ?_⟩, ?_⟩, ?_⟩, ?_⟩, ?_⟩ <;>
    exact lowCh_beq_false _ h (by decide)

/-- Normalisation of a bare three-letter token absent from the alias table:
it is accepted upper-cased. -/
theorem norm_code_three (a b c : Char) (ha : isAlphaCh a = true) (hb : isAlphaCh b = true)
    (hc : isAlphaCh c = true)
    (hAl : SrcTool.ALIASES.lookup (String.mk [lowCh a, lowCh b, lowCh c]) = none) :
    SrcTool.norm_code [a, b, c] = some (String.mk [upCh a, upCh b, upCh c]) := by
  unfold SrcTool.norm_code
  simp only [stripChars, List.dropWhile, ws_alpha ha, ws_alpha hb, ws_alpha hc,
    List.reverse_cons, List.reverse_nil, List.nil_append, List.cons_append,
    List.map_cons, List.map_nil, List.filter,
    lowCh_beq_false '.' ha (by decide), lowCh_beq_false '.' hb (by decide),
    lowCh_beq_false '.' hc (by decide), Bool.not_false, hAl,
    isSymCh_lowCh ha, isSymCh_lowCh hb, isSymCh_lowCh hc,
    List.length_cons, List.length_nil, List.all_cons, List.all_nil,
    isAlphaCh_lowCh ha, isAlphaCh_lowCh hb, isAlphaCh_lowCh hc,
    upCh_lowCh ha, upCh_lowCh hb, upCh_lowCh hc]
  simp

/-- C10: every text "W1 to W2" built from two three-letter purely alphabetic
words whose lower-case forms are absent from the alias table is parsed by the
cascade into a conversion intent with amount 1, source upper(W1) and
destination upper(W2): the generic fallback pattern plus the bare three-letter
acceptance of the normaliser treat any such word pair as a currency pair. -/
theorem parse_generic_three_letter (W1 W2 : String)
    (h1 : W1.data.length = 3) (h2 : W2.data.length = 3)
    (hA1 : ∀ ch ∈ W1.data, isAlphaCh ch = true)
    (hA2 : ∀ ch ∈ W2.data, isAlphaCh ch = true)
    (hn1 : SrcTool.ALIASES.lookup (lowStr W1) = none)
    (hn2 : SrcTool.ALIASES.lookup (lowStr W2) = none) :
    SrcTool.parse_currency_query (W1 ++ " to " ++ W2) =
      some ⟨some 1, upStr W1, some (upStr W2)⟩ := by
  obtain ⟨l1⟩ := W1
  obtain ⟨l2⟩ := W2
  rcases l1 with _ | ⟨a, l1⟩; · simp at h1
  rcases l1 with _ | ⟨b, l1⟩; · simp at h1
  rcases l1 with _ | ⟨c, l1⟩; · simp at h1
  rcases l1 with _ | ⟨x, l1⟩
  case cons.cons.cons.cons => simp at h1
  rcases l2 with _ | ⟨d, l2⟩; · simp at h2
  rcases l2 with _ | ⟨e, l2⟩; · simp at h2
  rcases l2 with _ | ⟨f, l2⟩; · simp at h2
  rcases l2 with _ | ⟨y, l2⟩
  case cons.cons.cons.cons => simp at h2
  have hA : isAlphaCh a = true := hA1 a (by simp)
  have hB : isAlphaCh b = true := hA1 b (by simp)
  have hC : isAlphaCh c = true := hA1 c (by simp)
  have hD : isAlphaCh d = true := hA2 d (by simp)
  have hE : isAlphaCh e = true := hA2 e (by simp)
  have hF : isAlphaCh f = true := hA2 f (by simp)
  have s1 : reSearch SrcTool.pat1 [a, b, c, ' ', 't', 'o', ' ', d, e, f] = none := by
    simp +decide [reSearch, mtch, SrcTool.pat1, SrcTool.numRE, SrcTool.srcCls,
      SrcTool.toIn, SrcTool.ws1, litM, clsTake, downRange, Function.comp_def, ite_flatMap, ite_listMap, ite_append, ite_head?, ite_optMap,
      ws_alpha hA, ws_alpha hB, ws_alpha hC, ws_alpha hD, ws_alpha hE, ws_alpha hF,
      digit_alpha hA, digit_alpha hB, digit_alpha hC,
      digit_alpha hD, digit_alpha hE, digit_alpha hF]
  have s2 : reSearch SrcTool.pat2 [a, b, c, ' ', 't', 'o', ' ', d, e, f] = none := by
    simp +decide [reSearch, mtch, SrcTool.pat2, SrcTool.numRE, SrcTool.srcCls,
      SrcTool.toIn, SrcTool.ws1, litM, clsTake, downRange, Function.comp_def, ite_flatMap, ite_listMap, ite_append, ite_head?, ite_optMap,
      digit_alpha hA, digit_alpha hB, digit_alpha hC,
      digit_alpha hD, digit_alpha hE, digit_alpha hF]
  have s3 : reSearch SrcTool.pat3 [a, b, c, ' ', 't', 'o', ' ', d, e, f] = none := by
    simp +decide [reSearch, mtch, SrcTool.pat3, SrcTool.currRE, SrcTool.sepAny,
      SrcTool.ws0, SrcTool.ws1, litM, clsTake, downRange, Function.comp_def, ite_flatMap, ite_listMap, ite_append, ite_head?, ite_optMap,
      ws_alpha hA, ws_alpha hB, ws_alpha hC, ws_alpha hD, ws_alpha hE, ws_alpha hF]
  have s4 : reSearch SrcTool.pat4 [a, b, c, ' ', 't', 'o', ' ', d, e, f] = none := by
    simp +decide [reSearch, mtch, SrcTool.pat4, SrcTool.currRE, SrcTool.sepAny,
      SrcTool.ws0, SrcTool.ws1, litM, clsTake, downRange, Function.comp_def, ite_flatMap, ite_listMap, ite_append, ite_head?, ite_optMap,
      ws_alpha hA, ws_alpha hB, ws_alpha hC, ws_alpha hD, ws_alpha hE, ws_alpha hF]
  have s5 : reSearch SrcTool.pat5 [a, b, c, ' ', 't', 'o', ' ', d, e, f] = none := by
    simp +decide [reSearch, mtch, SrcTool.pat5, SrcTool.ws1, litM, clsTake,
      downRange, Function.comp_def, ite_flatMap, ite_listMap, ite_append, ite_head?, ite_optMap, hA, hB, hC, hD, hE, hF,
      ws_alpha hA, ws_alpha hB, ws_alpha hC, ws_alpha hD, ws_alpha hE, ws_alpha hF]
  have s6 : reSearch SrcTool.pat6 [a, b, c, ' ', 't', 'o', ' ', d, e, f] = none := by
    simp +decide [reSearch, mtch, SrcTool.pat6, SrcTool.ws1, litM, clsTake,
      downRange, Function.comp_def, ite_flatMap, ite_listMap, ite_append, ite_head?, ite_optMap,
      ws_alpha hA, ws_alpha hB, ws_alpha hC, ws_alpha hD, ws_alpha hE, ws_alpha hF]
  have s7 : reSearch SrcTool.pat7 [a, b, c, ' ', 't', 'o', ' ', d, e, f] =
      some [("dst", [d, e, f]), ("src", [a, b, c])] := by
    simp +decide [reSearch, mtch, SrcTool.pat7, SrcTool.srcCls, SrcTool.ws1,
      SrcTool.toIn, litM, clsTake, downRange, Function.comp_def, ite_flatMap, ite_listMap, ite_append, ite_head?, ite_optMap,
      srcClass_alpha hA, srcClass_alpha hB, srcClass_alpha hC,
      srcClass_alpha hD, srcClass_alpha hE, srcClass_alpha hF,
      ws_alpha hA, ws_alpha hB, ws_alpha hC, ws_alpha hD, ws_alpha hE, ws_alpha hF]
  have cmA : (a == ',') = false := alpha_beq_nonalpha hA (by decide)
  have cmB : (b == ',') = false := alpha_beq_nonalpha hB (by decide)
  have cmC : (c == ',') = false := alpha_beq_nonalpha hC (by decide)
  have cmD : (d == ',') = false := alpha_beq_nonalpha hD (by decide)
  have cmE : (e == ',') = false := alpha_beq_nonalpha hE (by decide)
  have cmF : (f == ',') = false := alpha_beq_nonalpha hF (by decide)
  have hamt : SrcTool.parse_amount [a, b, c, ' ', 't', 'o', ' ', d, e, f] = none := by
    simp +decide [SrcTool.parse_amount, SrcTool.numRE, reSearch, mtch, litM,
      clsTake, downRange, List.filter, Function.comp_def, ite_flatMap, ite_listMap, ite_append, ite_head?, ite_optMap,
      cmA, cmB, cmC, cmD, cmE, cmF,
      digit_alpha hA, digit_alpha hB, digit_alpha hC,
      digit_alpha hD, digit_alpha hE, digit_alpha hF]
  have hc1 : SrcTool.norm_code [a, b, c] = some (String.mk [upCh a, upCh b, upCh c]) :=
    norm_code_three a b c hA hB hC hn1
  have hc2 : SrcTool.norm_code [d, e, f] = some (String.mk [upCh d, upCh e, upCh f]) :=
    norm_code_three d e f hD hE hF hn2
  have t1 : SrcTool.tryPattern [a, b, c, ' ', 't', 'o', ' ', d, e, f] SrcTool.pat1 = none := by
    simp only [SrcTool.tryPattern, s1]
  have t2 : SrcTool.tryPattern [a, b, c, ' ', 't', 'o', ' ', d, e, f] SrcTool.pat2 = none := by
    simp only [SrcTool.tryPattern, s2]
  have t3 : SrcTool.tryPattern [a, b, c, ' ', 't', 'o', ' ', d, e, f] SrcTool.pat3 = none := by
    simp only [SrcTool.tryPattern, s3]
  have t4 : SrcTool.tryPattern [a, b, c, ' ', 't', 'o', ' ', d, e, f] SrcTool.pat4 = none := by
    simp only [SrcTool.tryPattern, s4]
  have t5 : SrcTool.tryPattern [a, b, c, ' ', 't', 'o', ' ', d, e, f] SrcTool.pat5 = none := by
    simp only [SrcTool.tryPattern, s5]
  have t6 : SrcTool.tryPattern [a, b, c, ' ', 't', 'o', ' ', d, e, f] SrcTool.pat6 = none := by
    simp only [SrcTool.tryPattern, s6]
  have lkS : List.lookup "src" [("dst", [d, e, f]), ("src", [a, b, c])] = some [a, b, c] := rfl
  have lkD : List.lookup "dst" [("dst", [d, e, f]), ("src", [a, b, c])] = some [d, e, f] := rfl
  have t7 : SrcTool.tryPattern [a, b, c, ' ', 't', 'o', ' ', d, e, f] SrcTool.pat7 =
      some ⟨some 1, String.mk [upCh a, upCh b, upCh c],
        some (String.mk [upCh d, upCh e, upCh f])⟩ := by
    simp +decide [SrcTool.tryPattern, s7, hamt, capGet, lkS, lkD, hc1, hc2]
  have hdat : ((String.mk [a, b, c]) ++ " to " ++ (String.mk [d, e, f])).data =
      [a, b, c, ' ', 't', 'o', ' ', d, e, f] := rfl
  simp only [SrcTool.parse_currency_query, hdat, SrcTool.CONVERT_PATTERNS,
    List.findSome?, t1, t2, t3, t4, t5, t6, t7]
  rfl

/-- Concrete instance of the generic fallback: the non-currency phrase
"fly to bkk" produces the intent 1 FLY to BKK. -/
theorem parse_generic_three_letter_witness :
    SrcTool.parse_currency_query ("fly" ++ " to " ++ "bkk") =
      some ⟨some 1, upStr "fly", some (upStr "bkk")⟩ :=
  parse_generic_three_letter "fly" "bkk" (by decide) (by decide)
    (by decide) (by decide) (by decide) (by decide)
